import Mathlib

set_option maxRecDepth 100000

/-!
Verification development for the Form_Field_Export_to_Word_app pipeline.

The Python source has two core components:
 * `process_excel_st` (the Normalizer): works positionally on an openpyxl
   worksheet — marker detection ("Bird species" in column 7), fill-down of
   columns 1-10, the column-4 sentinel, conditional fill of columns 14-15,
   and suffix row deletion.
 * `create_forms_from_excel_st` (the Document Composer): works by header name
   on a pandas DataFrame and emits one document per (Form Description, Form ID)
   group.

The embedding below models worksheet cells as `Cell` (None / string / numeric),
a worksheet as a row count plus a total cell function (all mutations in the
source stay within the existing row range, and the single `delete_rows` call
removes a suffix, so truncating the row count is an exact model), and DataFrame
records as `FRow`. Text helpers mirror the Python string functions character by
character; scanners that Python implements with `re.sub` are written with an
explicit fuel argument equal to the input length so that every definition is
structurally recursive and evaluable by `decide`.
-/

/-- Characters treated as whitespace by Python `str.strip()` (the ASCII range
plus the two Latin-1 whitespace codepoints; other Unicode space characters do
not occur in any value this development manipulates). -/
def pyIsSpace (c : Char) : Bool :=
  c.toNat = 9 || c.toNat = 10 || c.toNat = 11 || c.toNat = 12 || c.toNat = 13 ||
  c.toNat = 28 || c.toNat = 29 || c.toNat = 30 || c.toNat = 31 || c.toNat = 32 ||
  c.toNat = 133 || c.toNat = 160

/-- Python `str.strip()` on a character list: drop whitespace from both ends. -/
def pyStripChars (l : List Char) : List Char :=
  ((l.dropWhile pyIsSpace).reverse.dropWhile pyIsSpace).reverse

/-- Python `str.strip()`. -/
def pyStrip (s : String) : String :=
  String.mk (pyStripChars s.data)

/-- Python `str.lower()` (ASCII; the strings compared in the source are ASCII). -/
def strLower (s : String) : String :=
  String.mk (s.data.map Char.toLower)

/-- Python `str.upper()` (ASCII). -/
def strUpper (s : String) : String :=
  String.mk (s.data.map Char.toUpper)

/-- Lexicographic strict order on character lists, matching Python string
comparison (by code point). -/
def charListLt : List Char → List Char → Bool
  | [], [] => false
  | [], _ :: _ => true
  | _ :: _, [] => false
  | a :: as, b :: bs =>
    if a.toNat < b.toNat then true
    else if b.toNat < a.toNat then false
    else charListLt as bs

/-- Lexicographic `≤` on strings (Python string comparison). -/
def strLeB (a b : String) : Bool :=
  ! charListLt b.data a.data

/-- Python `str.replace(pat, rep)`: left-to-right, non-overlapping, never
rescanning the replacement. `fuel` bounds recursion depth; callers pass the
input length, which always suffices since each step consumes at least one
character. -/
def replaceCharsAux (pat rep : List Char) : Nat → List Char → List Char
  | 0, l => l
  | _ + 1, [] => []
  | fuel + 1, c :: rest =>
    if pat ≠ [] ∧ pat.isPrefixOf (c :: rest) then
      rep ++ replaceCharsAux pat rep fuel (List.drop pat.length (c :: rest))
    else
      c :: replaceCharsAux pat rep fuel rest

/-- Python `s.replace(pat, rep)` for nonempty `pat`. -/
def strReplace (s pat rep : String) : String :=
  String.mk (replaceCharsAux pat.data rep.data s.data.length s.data)

/-- `s.encode('ascii', 'ignore').decode('ascii')`: drops exactly the
characters with code point above 127 (ASCII control characters are kept). -/
def asciiIgnore (l : List Char) : List Char :=
  l.filter (fun c => c.toNat ≤ 127)

/-- Scan for the first unescaped closing brace, as the non-greedy `.*?\}` does:
`.` does not match a newline, so a newline before any brace means no match. -/
def findCloseBrace : List Char → Option (List Char)
  | [] => none
  | c :: rest =>
    if c = '}' then some rest
    else if c = '\n' then none
    else findCloseBrace rest

/-- One pass of `re.sub(r'\x7bhttp.*?\x7d', '', s, flags=re.IGNORECASE)`:
remove every segment that starts with a literal opening brace followed by
`http` (case-insensitive) and runs to the nearest closing brace with no
intervening newline. -/
def stripHttpAux : Nat → List Char → List Char
  | 0, l => l
  | _ + 1, [] => []
  | fuel + 1, c :: rest =>
    match rest with
    | a :: b :: d :: e :: rest' =>
      if c = '{' ∧ a.toLower = 'h' ∧ b.toLower = 't' ∧ d.toLower = 't' ∧ e.toLower = 'p' then
        match findCloseBrace rest' with
        | some rem => stripHttpAux fuel rem
        | none => c :: stripHttpAux fuel rest
      else c :: stripHttpAux fuel rest
    | _ => c :: stripHttpAux fuel rest

def stripHttpBraces (l : List Char) : List Char :=
  stripHttpAux l.length l

/-- Remainder after the first `>` character, if any. -/
def findGtClose : List Char → Option (List Char)
  | [] => none
  | c :: rest => if c = '>' then some rest else findGtClose rest

/-- One pass of `re.sub(r'<[^>]+>', '', s)`: remove every segment consisting
of `<`, at least one non-`>` character, and a closing `>`. -/
def stripTagsAux : Nat → List Char → List Char
  | 0, l => l
  | _ + 1, [] => []
  | fuel + 1, c :: rest =>
    if c = '<' then
      match rest with
      | [] => [c]
      | d :: rest' =>
        if d = '>' then c :: stripTagsAux fuel rest
        else
          match findGtClose rest' with
          | some rem => stripTagsAux fuel rem
          | none => c :: stripTagsAux fuel rest
    else c :: stripTagsAux fuel rest

def stripTags (l : List Char) : List Char :=
  stripTagsAux l.length l

/-- `safe_text_for_docx(value)` from the source: convert to string (None
becomes `""`), drop non-ASCII code points, remove `\x7bhttp...\x7d` fragments
and `<...>` tags, decode the three basic HTML entities, replace non-breaking
spaces, and strip. -/
def safe_text_for_docx (value : Option String) : String :=
  match value with
  | none => ""
  | some s =>
    let s1 := String.mk (stripTags (stripHttpBraces (asciiIgnore s.data)))
    let s2 := strReplace (strReplace (strReplace s1 "&lt;" "<") "&gt;" ">") "&amp;" "&"
    pyStrip (strReplace s2 "\xa0" " ")

/-- `safe_text_for_docx` applied to an actual string value. -/
def safeTextS (s : String) : String :=
  safe_text_for_docx (some s)

/-- A string is printable ASCII when every character is in the range 32-126. -/
def isPrintableAsciiB (s : String) : Bool :=
  s.data.all (fun c => 32 ≤ c.toNat && c.toNat ≤ 126)

/-- Infix test on character lists (used to speak about substrings of rendered
text). -/
def isInfixB (p l : List Char) : Bool :=
  l.tails.any (fun t => p.isPrefixOf t)

/-! ## Worksheet model (openpyxl side, used by `process_excel_st`) -/

/-- A worksheet cell value: `empty` is Python `None`, `str` a string cell,
`int` a numeric cell (numeric cells in this export are integers). -/
inductive Cell : Type
  | empty : Cell
  | str : String → Cell
  | int : Int → Cell
deriving DecidableEq, Repr

/-- Blankness as tested throughout `process_excel_st`: the fill loops use
`value is None or (isinstance(value, str) and value.strip() == "")`, and the
marker/column-3/column-4 checks use `value is None or str(value).strip() == ""`.
On the three cell shapes above the two Python expressions agree (`str` of a
number is never whitespace-only). -/
def Cell.isBlank : Cell → Bool
  | .empty => true
  | .str s => pyStrip s = ""
  | .int _ => false

/-- A worksheet: `max_row` plus the cell contents, addressed 1-based as
`cells row column`. Reads outside rows `1..nrows` yield `None`, as in
openpyxl. Every write the source performs targets a row `≤ max_row`, and the
single `delete_rows` call removes a suffix, so deletion is modelled by
shrinking `nrows`. -/
structure Sheet : Type where
  nrows : Nat
  cells : Nat → Nat → Cell

/-- `sheet.cell(row=r, column=c).value`. -/
def getCell (s : Sheet) (r c : Nat) : Cell :=
  if 1 ≤ r ∧ r ≤ s.nrows then s.cells r c else Cell.empty

/-- `sheet.cell(row=r, column=c).value = v` (rows in range; the row count is
unchanged by in-range writes, as in openpyxl). -/
def setCell (s : Sheet) (r c : Nat) (v : Cell) : Sheet :=
  ⟨s.nrows, fun r' c' => if r' = r ∧ c' = c then v else s.cells r' c'⟩

/-- Build a sheet from a row-major list of rows (cells beyond a row's literal
entries are `None`). -/
def mkSheet (rows : List (List Cell)) : Sheet :=
  ⟨rows.length, fun r c => (rows.getD (r - 1) []).getD (c - 1) Cell.empty⟩

/-- Python `int(value)` on a cell value: numbers pass through, strings are
parsed as an optionally signed decimal numeral (surrounding whitespace
allowed), `None` and non-numeric strings raise, modelled as `none`.
(Underscore-grouped numerals and non-ASCII digits, which Python also accepts,
do not occur in this data and are not modelled.) -/
def pyDigits : List Char → Option Nat
  | [] => none
  | l => pyDigitsAux l 0
where
  pyDigitsAux : List Char → Nat → Option Nat
    | [], acc => some acc
    | c :: rest, acc =>
      if c.isDigit then pyDigitsAux rest (acc * 10 + (c.toNat - 48)) else none

def pyToInt : Cell → Option Int
  | .empty => none
  | .int n => some n
  | .str s =>
    match pyStripChars s.data with
    | '+' :: rest => (pyDigits rest).map (fun n => (n : Int))
    | '-' :: rest => (pyDigits rest).map (fun n => -(n : Int))
    | l => (pyDigits l).map (fun n => (n : Int))

/-- The hard-coded `valid_values` set from `process_excel_st`. -/
def validValues : List Int :=
  [10, 11, 12, 14, 15, 17, 18, 19, 28, 29, 30, 94, 103, 104, 107, 108, 109, 117,
   119, 120, 122, 128, 130, 131, 142, 160, 168, 170, 206, 208, 209, 212, 214, 216,
   217, 220, 221, 222, 223, 224, 225, 226, 227, 228, 284, 292, 293, 311, 314, 315,
   316, 320, 325, 326, 371, 431, 980, 995, 1391, 1401, 1404, 1672, 1673, 1759, 2329,
   2440, 2472, 2473, 2485, 2486, 2500, 2502, 3282, 3708, 3709, 3875, 4240, 4243,
   4244, 4245, 5894, 5901, 5940, 7349, 8829, 8830, 9114, 9115, 9116, 9117, 9118, 9119,
   9120, 9121, 9122, 9126, 9127, 9128, 9129, 9130, 9135, 9136, 9137, 9138, 9139, 9140,
   9141, 9142, 9143, 9144, 9145, 9150, 9151, 9152, 9153, 9154, 9155, 9156, 9157, 9158,
   9179, 9180, 9181, 9189, 9191, 9192, 9201, 9202, 9203, 9204, 9205, 9206, 9207, 9208,
   9276, 9277, 9278, 9279, 9280, 9281, 9282, 9298, 9299, 9333, 9529, 9540, 9543, 9544,
   9552, 9557, 9565, 10614, 10618, 12739, 12960, 15463, 23157, 23159]

/-- The marker test of step 1: `isinstance(v, str) and v.strip() == "Bird species"`. -/
def isBirdMarker : Cell → Bool
  | .str s => pyStrip s = "Bird species"
  | _ => false

/-- First row index in `start_row .. max_row` whose column 7 holds the marker. -/
def markerRow (s : Sheet) (startRow : Nat) : Option Nat :=
  (List.range' startRow (s.nrows + 1 - startRow)).find? (fun r => isBirdMarker (getCell s r 7))

/-- `end_row_for_processing`: initialised to `max_row`, set to the row before
the marker when the marker row has a blank column 8. -/
def endRowForProcessing (s : Sheet) (startRow : Nat) : Nat :=
  match markerRow s startRow with
  | some r => if (getCell s r 8).isBlank then r - 1 else s.nrows
  | none => s.nrows

/-- `end_row_for_deletion`: initialised to `max_row` (not `max_row + 1`), set
to the marker row when its column 8 is blank. -/
def endRowForDeletion (s : Sheet) (startRow : Nat) : Nat :=
  match markerRow s startRow with
  | some r => if (getCell s r 8).isBlank then r else s.nrows
  | none => s.nrows

/-- One fill-down step at row `r`, column `c`: if the cell is blank, copy the
(possibly already filled) value of the cell directly above. -/
def fillDownColStep (c r : Nat) (s : Sheet) : Sheet :=
  if (getCell s r c).isBlank then setCell s r c (getCell s (r - 1) c) else s

/-- Fill-down over one column: rows `startRow+1 .. startRow+n`, top to bottom
(the inner loop of step 4). -/
def fillDownCol (c startRow : Nat) : Nat → Sheet → Sheet
  | 0, s => s
  | n + 1, s => fillDownColStep c (startRow + n + 1) (fillDownCol c startRow n s)

/-- Fill-down over a list of columns, left to right (the outer loop of step 4). -/
def fillDownCols : List Nat → Nat → Nat → Sheet → Sheet
  | [], _, _, s => s
  | c :: cs, startRow, n, s => fillDownCols cs startRow n (fillDownCol c startRow n s)

/-- Columns 1-10, as `range(1, 11)`. -/
def fillCols : List Nat := [1, 2, 3, 4, 5, 6, 7, 8, 9, 10]

/-- The column-4 special rule at one row: if column 3 is non-blank and column
4 is blank, write the sentinel. -/
def specialFillStep (r : Nat) (s : Sheet) : Sheet :=
  if (getCell s r 3).isBlank = false ∧ (getCell s r 4).isBlank then
    setCell s r 4 (Cell.str "(empty subsection)")
  else s

/-- The column-4 special rule over rows `startRow+1 .. startRow+n` (step 5). -/
def specialFill (startRow : Nat) : Nat → Sheet → Sheet
  | 0, s => s
  | n + 1, s => specialFillStep (startRow + n + 1) (specialFill startRow n s)

/-- The row condition of step 6: column 10 equals the exact string
`"Dropdown select"` and column 6 converts via `int(...)` to a member of
`valid_values`. -/
def condRow (s : Sheet) (r : Nat) : Bool :=
  (getCell s r 10 == Cell.str "Dropdown select") &&
    (match pyToInt (getCell s r 6) with
     | some n => validValues.contains n
     | none => false)

/-- One conditional-fill write: columns 14/15 are only filled when the cell is
`None` (`current_cell.value is None`) — unlike step 4, a whitespace-only
string is not filled. -/
def condFillCell (c r : Nat) (s : Sheet) : Sheet :=
  if getCell s r c = Cell.empty then setCell s r c (getCell s (r - 1) c) else s

/-- Step 6 at one row: when the condition holds, fill column 14 then column 15. -/
def condFillRow (r : Nat) (s : Sheet) : Sheet :=
  if condRow s r then condFillCell 15 r (condFillCell 14 r s) else s

/-- Step 6 over rows `startRow+1 .. startRow+n`. -/
def condFill (startRow : Nat) : Nat → Sheet → Sheet
  | 0, s => s
  | n + 1, s => condFillRow (startRow + n + 1) (condFill startRow n s)

/-- The three fill phases of `process_excel_st` (steps 4-6), applied over rows
`start_row+1 .. end_row_for_processing`. -/
def filledSheet (s : Sheet) (startRow : Nat) : Sheet :=
  let n := endRowForProcessing s startRow - startRow
  condFill startRow n (specialFill startRow n (fillDownCols fillCols startRow n s))

/-- `process_excel_st` on an in-memory sheet: marker detection, the early
return when `end_row_for_processing < start_row` (which saves the unmodified
workbook and returns an empty set, reaching no further step), the fill phases,
and the final `delete_rows(end_row_for_deletion, max_row - end_row_for_deletion + 1)`
guarded by `max_row >= end_row_for_deletion`. Deletion of the suffix is
modelled by truncating the row count. -/
def process_excel_st (s : Sheet) (startRow : Nat) : Sheet × List Int :=
  if endRowForProcessing s startRow < startRow then
    (s, [])
  else
    let s3 := filledSheet s startRow
    let del := endRowForDeletion s startRow
    (if del ≤ s3.nrows then { s3 with nrows := del - 1 } else s3, validValues)

/-! ## Specification-side recurrences for the fill phases -/

/-- The value fill-down leaves in column `c` at row `r`: rows at or before
`startRow` keep their value; a blank cell takes the filled value of the row
above. Equivalently, the nearest non-blank original value at or above the
row, bottoming out at row `startRow`. -/
def fillSpec (s : Sheet) (c startRow : Nat) : Nat → Cell
  | 0 => getCell s 0 c
  | r + 1 =>
    if r + 1 ≤ startRow then getCell s (r + 1) c
    else if (getCell s (r + 1) c).isBlank then fillSpec s c startRow r
    else getCell s (r + 1) c

/-- The value the conditional fill leaves in column `c ∈ {14, 15}` at row `r`:
a `None` cell in a row satisfying `condRow` takes the filled value of the row
above; everything else is unchanged. -/
def condSpec (s : Sheet) (c startRow : Nat) : Nat → Cell
  | 0 => getCell s 0 c
  | r + 1 =>
    if r + 1 ≤ startRow then getCell s (r + 1) c
    else if condRow s (r + 1) ∧ getCell s (r + 1) c = Cell.empty then condSpec s c startRow r
    else getCell s (r + 1) c

/-! ## DataFrame model (pandas side, used by `create_forms_from_excel_st`) -/

/-- One DataFrame record after the `astype(str)` coercions of the composer;
fields are addressed by header name in the source. `positionId` is the
numeric "Position ID" column, used only for minima and sorting. The two
Eccairs columns are coerced by the source but never used in rendering and are
omitted. -/
structure FRow : Type where
  formDesc : String
  formId : String
  «section» : String
  subsectionHeader : String
  positionId : Int
  fieldId : String
  fieldDesc : String
  fieldType : String
  option : String
  mandatory : String
deriving DecidableEq, Repr

/-- `Series.astype(str).replace("nan", "n/a")`: exact-value replacement of the
string a missing value coerces to. -/
def stdStr (s : String) : String :=
  if s = "nan" then "n/a" else s

/-- The column standardisation block of `create_forms_from_excel_st`: the
replacement applies to "Subsection Header" and "Option" among the rendered
columns. -/
def standardize (r : FRow) : FRow :=
  { r with subsectionHeader := stdStr r.subsectionHeader, option := stdStr r.option }

/-- Stable insertion of one element: placed before the first element it is
`le`-below-or-tied-with that does not precede it. -/
def sortInsert {α : Type} (le : α → α → Bool) (x : α) : List α → List α
  | [] => [x]
  | y :: ys => if le x y then x :: y :: ys else y :: sortInsert le x ys

/-- Stable sort (insertion sort). Models the observable behaviour of the
pandas `sort_values` calls in the source: sorted output, with tied elements in
input order (numpy's default sort is stable on the small arrays these calls
see, switching to insertion sort below 16 elements). -/
def stableSort {α : Type} (le : α → α → Bool) : List α → List α
  | [] => []
  | x :: xs => sortInsert le x (stableSort le xs)

/-- Keep the first occurrence of each key, skipping keys already in `seen`:
the shape shared by pandas `unique`/`drop_duplicates` and the
`processed_field_ids_for_current_subsection` set in the source. -/
def dedupBy {α β : Type} [DecidableEq β] (key : α → β) : List α → List β → List α
  | [], _ => []
  | x :: xs, seen =>
    if key x ∈ seen then dedupBy key xs seen
    else x :: dedupBy key xs (key x :: seen)

/-- Distinct values of a string list, first occurrences kept (pandas `unique`). -/
def dedupStr (l : List String) : List String :=
  dedupBy (fun s => s) l []

/-- Minimum of a list of integers (pandas `min` over a nonempty group). -/
def intMin : List Int → Int
  | [] => 0
  | x :: xs => xs.foldl min x

/-- Minimum "Position ID" over the rows of the group whose `key` equals `k`. -/
def minPosBy (g : List FRow) (key : FRow → String) (k : String) : Int :=
  intMin ((g.filter (fun r => key r = k)).map (fun r => r.positionId))

/-- `group.groupby(key)['Position ID'].min().sort_values().index`: pandas
`groupby` sorts the distinct keys lexicographically, then `sort_values` sorts
them by minimum Position ID (stably, so keys tied on the minimum stay in
lexicographic order). -/
def orderedKeysBy (g : List FRow) (key : FRow → String) : List String :=
  stableSort (fun a b => decide (minPosBy g key a ≤ minPosBy g key b))
    (stableSort strLeB (dedupStr (g.map key)))

/-- Ordering of (Form Description, Form ID) pairs, as pandas orders groupby
keys over two columns: lexicographic on the pair. -/
def pairLeB (a b : String × String) : Bool :=
  if a.1 = b.1 then strLeB a.2 b.2 else strLeB a.1 b.1

/-- The distinct `(Form Description, Form ID)` group keys in emission order. -/
def formKeys (df : List FRow) : List (String × String) :=
  stableSort pairLeB (dedupBy (fun p => p) (df.map (fun r => (r.formDesc, r.formId))) [])

/-- An abstract rendered document item. `fieldPara` is the field-label
paragraph opening each field block; `para` a Normal-style paragraph (options
label, skip note, no-options note, or the empty paragraph closing a
subsection); `bullet` a List-Bullet option entry. -/
inductive DocItem : Type
  | heading : Nat → String → DocItem
  | fieldPara : String → DocItem
  | para : String → DocItem
  | bullet : String → DocItem
deriving DecidableEq, Repr

def isFieldPara : DocItem → Bool
  | .fieldPara _ => true
  | _ => false

def isBulletItem : DocItem → Bool
  | .bullet _ => true
  | _ => false

def isHeadingItem : DocItem → Bool
  | .heading _ _ => true
  | _ => false

/-- The fixed note emitted for a large dropdown whose display was not enabled. -/
def moreThan50Text : String :=
  "  Various options (more than 50 options) - Display skipped by user."

def noOptionsText : String :=
  "  (No valid options defined or retrieved for this dropdown)"

/-- `st.session_state.get(f'config_choice_{field_id}', False)`: the per-field
configuration with default `false` for absent entries. -/
def lookupCfg (cfg : List (String × Bool)) (fid : String) : Bool :=
  ((cfg.find? (fun p => p.1 = fid)).map (fun p => p.2)).getD false

/-- The option query for one field: all rows of the whole table sharing the
Field ID whose Option is not (case-insensitively, without trimming) "n/a",
distinct values in first-occurrence order (`unique().tolist()`). -/
def optionsForField (df : List FRow) (fid : String) : List String :=
  dedupStr ((df.filter (fun r => r.fieldId = fid ∧ strLower r.option ≠ "n/a")).map (fun r => r.option))

/-- The field-label paragraph text for the dropdown branch:
`f'{display_field_desc}: '` and `f'[{field_type}; {safe_field_id}]'`. -/
def fieldLabelDropdown (row : FRow) : String :=
  (if strUpper (pyStrip row.mandatory) = "T" then safeTextS row.fieldDesc ++ "*"
   else safeTextS row.fieldDesc) ++ ": [" ++ row.fieldType ++ "; " ++ safeTextS row.fieldId ++ "]"

/-- The field-label paragraph text for the non-dropdown branch (the source
appends a trailing space and an empty run there). -/
def fieldLabelOther (row : FRow) : String :=
  (if strUpper (pyStrip row.mandatory) = "T" then safeTextS row.fieldDesc ++ "*"
   else safeTextS row.fieldDesc) ++ ": [" ++ row.fieldType ++ "; " ++ safeTextS row.fieldId ++ "] "

/-- Rendering of one field row (the body of the field loop): the label
paragraph, then for dropdown fields the options section according to the
distinct-option count and the per-field configuration. -/
def renderField (df : List FRow) (cfg : List (String × Bool)) (row : FRow) : List DocItem :=
  if row.fieldType = "Dropdown select" then
    DocItem.fieldPara (fieldLabelDropdown row) ::
      (if (optionsForField df row.fieldId).isEmpty then
        [DocItem.para noOptionsText]
      else if 50 < (optionsForField df row.fieldId).length then
        if lookupCfg cfg row.fieldId then
          DocItem.para "Options:" ::
            (optionsForField df row.fieldId).map (fun o => DocItem.bullet (safeTextS o))
        else
          [DocItem.para "Options:", DocItem.para moreThan50Text]
      else
        DocItem.para "Options:" ::
          (optionsForField df row.fieldId).map (fun o => DocItem.bullet (safeTextS o)))
  else
    [DocItem.fieldPara (fieldLabelOther row)]

/-- The field loop over the deduplicated rows of one subsection, carrying the
`processed_field_ids_for_current_subsection` set. -/
def renderFieldsLoop (df : List FRow) (cfg : List (String × Bool)) :
    List FRow → List String → List DocItem
  | [], _ => []
  | row :: rest, processed =>
    if row.fieldId ∈ processed then renderFieldsLoop df cfg rest processed
    else renderField df cfg row ++ renderFieldsLoop df cfg rest (row.fieldId :: processed)

/-- Rendering of the rows of one subsection group:
`sort_values(by="Position ID").drop_duplicates(subset=["Field ID"])`, then the
field loop. -/
def renderSubsectionRows (df : List FRow) (cfg : List (String × Bool)) (g : List FRow) : List DocItem :=
  renderFieldsLoop df cfg
    (dedupBy (fun r => r.fieldId) (stableSort (fun a b => decide (a.positionId ≤ b.positionId)) g) []) []

/-- `str(h).strip().lower() in ("n/a", "")`: the unnamed-subsection test. -/
def isUnnamedHeader (h : String) : Bool :=
  strLower (pyStrip h) = "n/a" || strLower (pyStrip h) = ""

/-- The collapsed unnamed bucket of a section: rows whose Subsection Header
strips-and-lowers to "n/a" or strips to the empty string. -/
def unnamedRows (sg : List FRow) : List FRow :=
  sg.filter (fun r => strLower (pyStrip r.subsectionHeader) = "n/a" ∨ pyStrip r.subsectionHeader = "")

/-- One iteration of the subsection loop for header value `h`: a named header
gets a level-2 heading and its exact-match rows; an unnamed header gets no
heading and the whole collapsed unnamed bucket, skipped when that bucket is
empty. Each non-skipped iteration ends with the empty paragraph the source
adds after the field loop. -/
def renderSubsectionPass (df : List FRow) (cfg : List (String × Bool)) (sg : List FRow)
    (h : String) : List DocItem :=
  if isUnnamedHeader h = false then
    (DocItem.heading 2 h ::
      renderSubsectionRows df cfg (sg.filter (fun r => r.subsectionHeader = h))) ++ [DocItem.para ""]
  else
    if (unnamedRows sg).isEmpty then []
    else renderSubsectionRows df cfg (unnamedRows sg) ++ [DocItem.para ""]

/-- Rendering of one section of a form group. -/
def renderSection (df : List FRow) (cfg : List (String × Bool)) (fg : List FRow)
    (sec : String) : List DocItem :=
  DocItem.heading 1 sec ::
    (orderedKeysBy (fg.filter (fun r => r.«section» = sec)) (fun r => r.subsectionHeader)).flatMap
      (renderSubsectionPass df cfg (fg.filter (fun r => r.«section» = sec)))

/-- Rendering of one form group: the level-0 title, then the sections in
display order. -/
def renderForm (df : List FRow) (cfg : List (String × Bool)) (fd fi : String) : List DocItem :=
  DocItem.heading 0 ("Form: " ++ fd ++ " [" ++ fi ++ "]") ::
    (orderedKeysBy (df.filter (fun r => r.formDesc = fd ∧ r.formId = fi))
      (fun r => r.«section»)).flatMap
      (renderSection df cfg (df.filter (fun r => r.formDesc = fd ∧ r.formId = fi)))

/-- `create_forms_from_excel_st`: standardise the columns, then emit one
document per distinct (Form Description, Form ID) pair. -/
def create_forms_from_excel_st (df : List FRow) (cfg : List (String × Bool)) :
    List ((String × String) × List DocItem) :=
  (formKeys (df.map standardize)).map (fun k => (k, renderForm (df.map standardize) cfg k.1 k.2))

/-- The level-1 headings of a rendered document, in order: the section
headings. -/
def sectionHeadings (items : List DocItem) : List String :=
  items.filterMap (fun it => match it with | DocItem.heading 1 t => some t | _ => none)

/-! ## Concrete inputs used by the claim theorems and witnesses -/

/-- A three-row sheet with no marker row anywhere (column 7 is empty). -/
def exC1 : Sheet := mkSheet [[Cell.str "a1"], [Cell.str "a2"], [Cell.str "a3"]]

/-- Header value present in column 1, blank cell below it, and a padding row. -/
def exC2 : Sheet := mkSheet [[Cell.str "H1"], [Cell.empty], [Cell.str "pad"]]

/-- Row 2 satisfies the conditional-fill condition (column 10 is
"Dropdown select", column 6 is 10 ∈ valid_values); its column 14 holds a
whitespace-only string while its column 15 is `None`; row 1 holds the values
above; row 3 is padding. -/
def exC3 : Sheet := mkSheet [
  [Cell.empty, Cell.empty, Cell.empty, Cell.empty, Cell.empty, Cell.empty, Cell.empty, Cell.empty,
   Cell.empty, Cell.empty, Cell.empty, Cell.empty, Cell.empty, Cell.str "A", Cell.str "B"],
  [Cell.empty, Cell.empty, Cell.empty, Cell.empty, Cell.empty, Cell.int 10, Cell.empty, Cell.empty,
   Cell.empty, Cell.str "Dropdown select", Cell.empty, Cell.empty, Cell.empty, Cell.str " ", Cell.empty],
  [Cell.str "pad"]]

/-- Row 2 has a non-blank column 3 and a blank column 4 (and so does the
header row, so no fill-down value is available). -/
def exC6 : Sheet := mkSheet [
  [Cell.empty, Cell.empty, Cell.str "h3", Cell.empty],
  [Cell.empty, Cell.empty, Cell.str "S", Cell.empty],
  [Cell.str "pad"]]

/-- The marker row sits at row 1 = `start_row` with a blank column 8, so
`end_row_for_processing` is 0 and the short-circuit path is taken. -/
def exC7 : Sheet := mkSheet [
  [Cell.empty, Cell.empty, Cell.empty, Cell.empty, Cell.empty, Cell.empty,
   Cell.str "Bird species", Cell.empty],
  [Cell.str "a"]]

/-- Convenience constructor for DataFrame records. -/
def mkFRow (fd fi sec sub : String) (pos : Int) (fid fdesc ftype opt mand : String) : FRow :=
  ⟨fd, fi, sec, sub, pos, fid, fdesc, ftype, opt, mand⟩

/-- One section holding two literal variants of an unnamed Subsection Header. -/
def dfC5x : List FRow := [
  mkFRow "F" "1" "S" "n/a" 1 "f1" "d1" "Text" "n/a" "F",
  mkFRow "F" "1" "S" "N/A" 2 "f2" "d2" "Text" "n/a" "F"]

/-- Two sections of one form, tied on minimum Position ID, first seen in the
order B then A. -/
def dfC8x : List FRow := [
  mkFRow "F" "1" "B" "n/a" 1 "b1" "db" "Text" "n/a" "F",
  mkFRow "F" "1" "A" "n/a" 1 "a1" "da" "Text" "n/a" "F"]

/-- A dropdown field "F9" with 60 distinct options. -/
def dfC4x : List FRow :=
  (List.range 60).map (fun i =>
    mkFRow "F" "1" "S" "n/a" 1 "F9" "d9" "Dropdown select" ("o" ++ toString i) "F")

/-- One source row of the "F9" field. -/
def rowC4x : FRow := mkFRow "F" "1" "S" "n/a" 1 "F9" "d9" "Dropdown select" "o0" "F"

/-- A configuration enabling the full display for "F9". -/
def cfgTrueC4 : List (String × Bool) := [("F9", true)]

/-- Two duplicate dropdown rows sharing Field ID "f2" (used for C9's witness
of the count at a concrete input). -/
def dfC9x : List FRow := [
  mkFRow "F" "1" "S" "n/a" 1 "f2" "d2" "Dropdown select" "X" "F",
  mkFRow "F" "1" "S" "n/a" 2 "f2" "d2" "Dropdown select" "Y" "F"]

/-! ## Supporting lemmas: the worksheet and the fill phases -/

theorem nrows_setCell (s : Sheet) (r c : Nat) (v : Cell) : (setCell s r c v).nrows = s.nrows := rfl

theorem getCell_setCell_self (s : Sheet) (r c : Nat) (v : Cell) (h1 : 1 ≤ r) (h2 : r ≤ s.nrows) :
    getCell (setCell s r c v) r c = v := by
  simp [getCell, setCell, h1, h2]

theorem getCell_setCell_ne (s : Sheet) (r c r' c' : Nat) (v : Cell) (h : r' ≠ r ∨ c' ≠ c) :
    getCell (setCell s r c v) r' c' = getCell s r' c' := by
  have hne : ¬ (r' = r ∧ c' = c) := by
    rcases h with h | h <;> intro hc <;> exact h (by simp [hc.1, hc.2])
  simp only [getCell, setCell]
  split
  · simp [hne]
  · rfl

theorem nrows_fillDownColStep (c r : Nat) (s : Sheet) :
    (fillDownColStep c r s).nrows = s.nrows := by
  unfold fillDownColStep
  split <;> rfl

theorem getCell_fillDownColStep_ne (c r : Nat) (s : Sheet) (r' c' : Nat) (h : r' ≠ r ∨ c' ≠ c) :
    getCell (fillDownColStep c r s) r' c' = getCell s r' c' := by
  unfold fillDownColStep
  split
  · exact getCell_setCell_ne s r c r' c' _ h
  · rfl

theorem nrows_fillDownCol (c startRow : Nat) : ∀ (n : Nat) (s : Sheet),
    (fillDownCol c startRow n s).nrows = s.nrows := by
  intro n
  induction n with
  | zero => intro s; rfl
  | succ n ih =>
    intro s
    rw [fillDownCol, nrows_fillDownColStep, ih]

theorem getCell_fillDownCol_out (c startRow : Nat) : ∀ (n : Nat) (s : Sheet) (r' c' : Nat),
    (c' ≠ c ∨ r' ≤ startRow ∨ startRow + n < r') →
    getCell (fillDownCol c startRow n s) r' c' = getCell s r' c' := by
  intro n
  induction n with
  | zero => intro s r' c' _; rfl
  | succ n ih =>
    intro s r' c' h
    rw [fillDownCol]
    have hstep : r' ≠ startRow + n + 1 ∨ c' ≠ c := by
      rcases h with h | h | h
      · exact Or.inr h
      · exact Or.inl (by omega)
      · exact Or.inl (by omega)
    rw [getCell_fillDownColStep_ne _ _ _ _ _ hstep]
    refine ih s r' c' ?_
    rcases h with h | h | h
    · exact Or.inl h
    · exact Or.inr (Or.inl h)
    · exact Or.inr (Or.inr (by omega))

theorem fillSpec_of_le (s : Sheet) (c startRow r : Nat) (h : r ≤ startRow) :
    fillSpec s c startRow r = getCell s r c := by
  cases r with
  | zero => rfl
  | succ r => simp [fillSpec, h]

theorem fillSpec_succ (s : Sheet) (c startRow r : Nat) (h : startRow < r + 1) :
    fillSpec s c startRow (r + 1) =
      if (getCell s (r + 1) c).isBlank then fillSpec s c startRow r else getCell s (r + 1) c := by
  have h' : ¬ (r + 1 ≤ startRow) := by omega
  simp [fillSpec, h']

theorem fillDownCol_get (c startRow : Nat) : ∀ (n : Nat) (s : Sheet) (r : Nat),
    startRow ≤ r → r ≤ startRow + n → startRow + n ≤ s.nrows →
    getCell (fillDownCol c startRow n s) r c = fillSpec s c startRow r := by
  intro n
  induction n with
  | zero =>
    intro s r h1 h2 _
    have hr : r = startRow := by omega
    subst hr
    rw [fillSpec_of_le s c r r (le_refl r)]
    rfl
  | succ n ih =>
    intro s r h1 h2 h3
    rw [fillDownCol]
    by_cases hr : r ≤ startRow + n
    · rw [getCell_fillDownColStep_ne _ _ _ _ _ (Or.inl (by omega))]
      exact ih s r h1 hr (by omega)
    · have hrR : r = startRow + n + 1 := by omega
      subst hrR
      have htop : getCell (fillDownCol c startRow n s) (startRow + n + 1) c
          = getCell s (startRow + n + 1) c :=
        getCell_fillDownCol_out c startRow n s _ c (Or.inr (Or.inr (by omega)))
      rw [fillSpec_succ s c startRow (startRow + n) (by omega)]
      unfold fillDownColStep
      by_cases hb : (getCell s (startRow + n + 1) c).isBlank
      · rw [if_pos (by rw [htop]; exact hb), if_pos hb]
        rw [getCell_setCell_self _ _ _ _ (by omega)
          (by rw [nrows_fillDownCol]; omega)]
        have hidx : startRow + n + 1 - 1 = startRow + n := by omega
        rw [hidx]
        exact ih s (startRow + n) (by omega) (le_refl _) (by omega)
      · rw [if_neg (by rw [htop]; exact hb), if_neg hb, htop]

theorem nrows_fillDownCols : ∀ (cols : List Nat) (startRow n : Nat) (s : Sheet),
    (fillDownCols cols startRow n s).nrows = s.nrows := by
  intro cols
  induction cols with
  | nil => intro _ _ _; rfl
  | cons c cs ih =>
    intro startRow n s
    rw [fillDownCols, ih, nrows_fillDownCol]

theorem getCell_fillDownCols_out : ∀ (cols : List Nat) (startRow n : Nat) (s : Sheet) (r' c' : Nat),
    c' ∉ cols →
    getCell (fillDownCols cols startRow n s) r' c' = getCell s r' c' := by
  intro cols
  induction cols with
  | nil => intro _ _ _ _ _ _; rfl
  | cons c cs ih =>
    intro startRow n s r' c' h
    rw [fillDownCols, ih _ _ _ _ _ (by simp at h; exact h.2)]
    exact getCell_fillDownCol_out c startRow n s r' c' (Or.inl (by simp at h; exact h.1))

theorem fillSpec_congr (s₁ s₂ : Sheet) (c startRow : Nat)
    (h : ∀ r', getCell s₁ r' c = getCell s₂ r' c) :
    ∀ r, fillSpec s₁ c startRow r = fillSpec s₂ c startRow r := by
  intro r
  induction r with
  | zero => simp [fillSpec, h 0]
  | succ r ih =>
    by_cases hle : r + 1 ≤ startRow
    · rw [fillSpec_of_le _ _ _ _ hle, fillSpec_of_le _ _ _ _ hle, h]
    · rw [fillSpec_succ _ _ _ _ (by omega), fillSpec_succ _ _ _ _ (by omega), h, ih]

theorem fillDownCols_get : ∀ (cols : List Nat) (startRow n : Nat) (s : Sheet) (c r : Nat),
    c ∈ cols → cols.Nodup → startRow ≤ r → r ≤ startRow + n → startRow + n ≤ s.nrows →
    getCell (fillDownCols cols startRow n s) r c = fillSpec s c startRow r := by
  intro cols
  induction cols with
  | nil => intro _ _ _ _ _ h; exact absurd h (List.not_mem_nil _)
  | cons c0 cs ih =>
    intro startRow n s c r hc hnd h1 h2 h3
    rw [fillDownCols]
    rcases List.mem_cons.mp hc with hc0 | hcs
    · subst hc0
      have hnotin : c ∉ cs := (List.nodup_cons.mp hnd).1
      rw [getCell_fillDownCols_out cs startRow n _ r c hnotin]
      exact fillDownCol_get c startRow n s r h1 h2 h3
    · rw [ih startRow n _ c r hcs (List.nodup_cons.mp hnd).2 h1 h2
        (by rw [nrows_fillDownCol]; exact h3)]
      exact fillSpec_congr _ _ c startRow
        (fun r' => getCell_fillDownCol_out c0 startRow n s r' c
          (Or.inl (fun hq => (List.nodup_cons.mp hnd).1 (hq ▸ hcs)))) r

theorem fillSpec_blank_iff (s : Sheet) (c startRow : Nat) : ∀ r, startRow ≤ r →
    ((fillSpec s c startRow r).isBlank = true ↔
      ∀ r', startRow ≤ r' → r' ≤ r → (getCell s r' c).isBlank = true) := by
  intro r
  induction r with
  | zero =>
    intro h1
    have h0 : startRow = 0 := by omega
    subst h0
    simp only [fillSpec]
    constructor
    · intro hb r' hr1 hr2
      have : r' = 0 := by omega
      subst this
      exact hb
    · intro hall
      exact hall 0 (le_refl 0) (le_refl 0)
  | succ r ih =>
    intro h1
    by_cases heq : startRow = r + 1
    · subst heq
      rw [fillSpec_of_le _ _ _ _ (le_refl _)]
      constructor
      · intro hb r' hr1 hr2
        have : r' = r + 1 := by omega
        subst this
        exact hb
      · intro hall
        exact hall (r + 1) (le_refl _) (le_refl _)
    · have hlt : startRow < r + 1 := by omega
      rw [fillSpec_succ _ _ _ _ hlt]
      by_cases hb : (getCell s (r + 1) c).isBlank
      · rw [if_pos hb]
        rw [ih (by omega)]
        constructor
        · intro hall r' hr1 hr2
          by_cases hr' : r' ≤ r
          · exact hall r' hr1 hr'
          · have : r' = r + 1 := by omega
            subst this
            exact hb
        · intro hall r' hr1 hr2
          exact hall r' hr1 (by omega)
      · rw [if_neg hb]
        constructor
        · intro hc
          exact absurd hc hb
        · intro hall
          exact absurd (hall (r + 1) (by omega) (le_refl _)) hb

theorem nrows_specialFillStep (r : Nat) (s : Sheet) : (specialFillStep r s).nrows = s.nrows := by
  unfold specialFillStep
  split <;> rfl

theorem getCell_specialFillStep_ne (r : Nat) (s : Sheet) (r' c' : Nat) (h : r' ≠ r ∨ c' ≠ 4) :
    getCell (specialFillStep r s) r' c' = getCell s r' c' := by
  unfold specialFillStep
  split
  · exact getCell_setCell_ne s r 4 r' c' _ h
  · rfl

theorem nrows_specialFill (startRow : Nat) : ∀ (n : Nat) (s : Sheet),
    (specialFill startRow n s).nrows = s.nrows := by
  intro n
  induction n with
  | zero => intro s; rfl
  | succ n ih => intro s; rw [specialFill, nrows_specialFillStep, ih]

theorem getCell_specialFill_out (startRow : Nat) : ∀ (n : Nat) (s : Sheet) (r' c' : Nat),
    (c' ≠ 4 ∨ r' ≤ startRow ∨ startRow + n < r') →
    getCell (specialFill startRow n s) r' c' = getCell s r' c' := by
  intro n
  induction n with
  | zero => intro s r' c' _; rfl
  | succ n ih =>
    intro s r' c' h
    rw [specialFill]
    have hstep : r' ≠ startRow + n + 1 ∨ c' ≠ 4 := by
      rcases h with h | h | h
      · exact Or.inr h
      · exact Or.inl (by omega)
      · exact Or.inl (by omega)
    rw [getCell_specialFillStep_ne _ _ _ _ hstep]
    refine ih s r' c' ?_
    rcases h with h | h | h
    · exact Or.inl h
    · exact Or.inr (Or.inl h)
    · exact Or.inr (Or.inr (by omega))

theorem specialFill_get (startRow : Nat) : ∀ (n : Nat) (s : Sheet) (r : Nat),
    startRow < r → r ≤ startRow + n → startRow + n ≤ s.nrows →
    getCell (specialFill startRow n s) r 4 =
      if (getCell s r 3).isBlank = false ∧ (getCell s r 4).isBlank then Cell.str "(empty subsection)"
      else getCell s r 4 := by
  intro n
  induction n with
  | zero => intro s r h1 h2 _; omega
  | succ n ih =>
    intro s r h1 h2 h3
    rw [specialFill]
    by_cases hr : r ≤ startRow + n
    · rw [getCell_specialFillStep_ne _ _ _ _ (Or.inl (by omega))]
      exact ih s r h1 hr (by omega)
    · have hrR : r = startRow + n + 1 := by omega
      subst hrR
      have h3g : getCell (specialFill startRow n s) (startRow + n + 1) 3
          = getCell s (startRow + n + 1) 3 :=
        getCell_specialFill_out startRow n s _ 3 (Or.inl (by omega))
      have h4g : getCell (specialFill startRow n s) (startRow + n + 1) 4
          = getCell s (startRow + n + 1) 4 :=
        getCell_specialFill_out startRow n s _ 4 (Or.inr (Or.inr (by omega)))
      unfold specialFillStep
      rw [h3g, h4g]
      split
      · exact getCell_setCell_self _ _ _ _ (by omega) (by rw [nrows_specialFill]; omega)
      · exact h4g

theorem nrows_condFillCell (c r : Nat) (s : Sheet) : (condFillCell c r s).nrows = s.nrows := by
  unfold condFillCell
  split <;> rfl

theorem getCell_condFillCell_ne (c r : Nat) (s : Sheet) (r' c' : Nat) (h : r' ≠ r ∨ c' ≠ c) :
    getCell (condFillCell c r s) r' c' = getCell s r' c' := by
  unfold condFillCell
  split
  · exact getCell_setCell_ne s r c r' c' _ h
  · rfl

theorem nrows_condFillRow (r : Nat) (s : Sheet) : (condFillRow r s).nrows = s.nrows := by
  unfold condFillRow
  split
  · rw [nrows_condFillCell, nrows_condFillCell]
  · rfl

theorem getCell_condFillRow_ne (r : Nat) (s : Sheet) (r' c' : Nat)
    (h : r' ≠ r ∨ (c' ≠ 14 ∧ c' ≠ 15)) :
    getCell (condFillRow r s) r' c' = getCell s r' c' := by
  have h15 : r' ≠ r ∨ c' ≠ 15 := by tauto
  have h14 : r' ≠ r ∨ c' ≠ 14 := by tauto
  unfold condFillRow
  split
  · rw [getCell_condFillCell_ne _ _ _ _ _ h15, getCell_condFillCell_ne _ _ _ _ _ h14]
  · rfl

theorem nrows_condFill (startRow : Nat) : ∀ (n : Nat) (s : Sheet),
    (condFill startRow n s).nrows = s.nrows := by
  intro n
  induction n with
  | zero => intro s; rfl
  | succ n ih => intro s; rw [condFill, nrows_condFillRow, ih]

theorem getCell_condFill_out (startRow : Nat) : ∀ (n : Nat) (s : Sheet) (r' c' : Nat),
    ((c' ≠ 14 ∧ c' ≠ 15) ∨ r' ≤ startRow ∨ startRow + n < r') →
    getCell (condFill startRow n s) r' c' = getCell s r' c' := by
  intro n
  induction n with
  | zero => intro s r' c' _; rfl
  | succ n ih =>
    intro s r' c' h
    rw [condFill]
    have hstep : r' ≠ startRow + n + 1 ∨ (c' ≠ 14 ∧ c' ≠ 15) := by
      rcases h with h | h | h
      · exact Or.inr h
      · exact Or.inl (by omega)
      · exact Or.inl (by omega)
    rw [getCell_condFillRow_ne _ _ _ _ hstep]
    refine ih s r' c' ?_
    rcases h with h | h | h
    · exact Or.inl h
    · exact Or.inr (Or.inl h)
    · exact Or.inr (Or.inr (by omega))

theorem condRow_congr (s₁ s₂ : Sheet) (r : Nat)
    (h10 : getCell s₁ r 10 = getCell s₂ r 10) (h6 : getCell s₁ r 6 = getCell s₂ r 6) :
    condRow s₁ r = condRow s₂ r := by
  unfold condRow
  rw [h10, h6]

theorem condSpec_of_le (s : Sheet) (c startRow r : Nat) (h : r ≤ startRow) :
    condSpec s c startRow r = getCell s r c := by
  cases r with
  | zero => rfl
  | succ r => simp [condSpec, h]

theorem condSpec_succ (s : Sheet) (c startRow r : Nat) (h : startRow < r + 1) :
    condSpec s c startRow (r + 1) =
      if condRow s (r + 1) ∧ getCell s (r + 1) c = Cell.empty then condSpec s c startRow r
      else getCell s (r + 1) c := by
  have h' : ¬ (r + 1 ≤ startRow) := by omega
  simp only [condSpec, h', if_false]

theorem getCell_condFillCell_self (c r : Nat) (s : Sheet) (h1 : 1 ≤ r) (h2 : r ≤ s.nrows) :
    getCell (condFillCell c r s) r c =
      if getCell s r c = Cell.empty then getCell s (r - 1) c else getCell s r c := by
  unfold condFillCell
  split
  · exact getCell_setCell_self _ _ _ _ h1 h2
  · rfl

theorem condFill_get (startRow : Nat) : ∀ (n : Nat) (s : Sheet) (r c : Nat),
    (c = 14 ∨ c = 15) → startRow ≤ r → r ≤ startRow + n → startRow + n ≤ s.nrows →
    getCell (condFill startRow n s) r c = condSpec s c startRow r := by
  intro n
  induction n with
  | zero =>
    intro s r c _ h1 h2 _
    have hr : r = startRow := by omega
    subst hr
    rw [condSpec_of_le s c r r (le_refl r)]
    rfl
  | succ n ih =>
    intro s r c hc h1 h2 h3
    rw [condFill]
    by_cases hr : r ≤ startRow + n
    · rw [getCell_condFillRow_ne _ _ _ _ (Or.inl (by omega))]
      exact ih s r c hc h1 hr (by omega)
    · have hrR : r = startRow + n + 1 := by omega
      subst hrR
      have hout : ∀ c', getCell (condFill startRow n s) (startRow + n + 1) c'
          = getCell s (startRow + n + 1) c' := by
        intro c'
        exact getCell_condFill_out startRow n s _ c' (Or.inr (Or.inr (by omega)))
      have hcond : condRow (condFill startRow n s) (startRow + n + 1)
          = condRow s (startRow + n + 1) :=
        condRow_congr _ _ _ (hout 10) (hout 6)
      have hidx : startRow + n + 1 - 1 = startRow + n := by omega
      rw [condSpec_succ s c startRow (startRow + n) (by omega)]
      unfold condFillRow
      rw [hcond]
      by_cases hcr : condRow s (startRow + n + 1)
      · rw [if_pos hcr]
        rcases hc with hc | hc <;> subst hc
        · -- column 14: the outer write to column 15 is transparent
          rw [getCell_condFillCell_ne _ _ _ _ _ (Or.inr (by omega))]
          rw [getCell_condFillCell_self 14 _ _ (by omega) (by rw [nrows_condFill]; omega)]
          rw [hout 14]
          by_cases hempty : getCell s (startRow + n + 1) 14 = Cell.empty
          · rw [if_pos hempty, if_pos ⟨hcr, hempty⟩, hidx]
            exact ih s (startRow + n) 14 (Or.inl rfl) (by omega) (le_refl _) (by omega)
          · rw [if_neg hempty, if_neg (by intro hq; exact hempty hq.2)]
        · -- column 15: the test and the copied value see through the column-14 write
          rw [getCell_condFillCell_self 15 _ _ (by omega)
            (by rw [nrows_condFillCell, nrows_condFill]; omega)]
          have hX15 : getCell (condFillCell 14 (startRow + n + 1) (condFill startRow n s))
              (startRow + n + 1) 15 = getCell s (startRow + n + 1) 15 := by
            rw [getCell_condFillCell_ne _ _ _ _ _ (Or.inr (by omega))]
            exact hout 15
          have hX15p : getCell (condFillCell 14 (startRow + n + 1) (condFill startRow n s))
              (startRow + n + 1 - 1) 15 = getCell (condFill startRow n s) (startRow + n + 1 - 1) 15 :=
            getCell_condFillCell_ne _ _ _ _ _ (Or.inl (by omega))
          rw [hX15, hX15p]
          by_cases hempty : getCell s (startRow + n + 1) 15 = Cell.empty
          · rw [if_pos hempty, if_pos ⟨hcr, hempty⟩, hidx]
            exact ih s (startRow + n) 15 (Or.inr rfl) (by omega) (le_refl _) (by omega)
          · rw [if_neg hempty, if_neg (by intro hq; exact hempty hq.2)]
      · rw [if_neg hcr, if_neg (by intro hq; exact hcr hq.1), hout c]

theorem markerRow_bounds (s : Sheet) (startRow r : Nat) (h : markerRow s startRow = some r) :
    startRow ≤ r ∧ r ≤ s.nrows := by
  unfold markerRow at h
  have hmem := List.mem_of_find?_eq_some h
  have := List.mem_range'_1.mp hmem
  omega

theorem endRowForProcessing_le (s : Sheet) (startRow : Nat) :
    endRowForProcessing s startRow ≤ s.nrows := by
  unfold endRowForProcessing
  cases h : markerRow s startRow with
  | none => exact le_refl _
  | some r =>
    have hb := markerRow_bounds s startRow r h
    show (if (getCell s r 8).isBlank = true then r - 1 else s.nrows) ≤ s.nrows
    by_cases hbl : (getCell s r 8).isBlank = true
    · rw [if_pos hbl]; omega
    · rw [if_neg hbl]

theorem endRowForDeletion_le (s : Sheet) (startRow : Nat) :
    endRowForDeletion s startRow ≤ s.nrows := by
  unfold endRowForDeletion
  cases h : markerRow s startRow with
  | none => exact le_refl _
  | some r =>
    have hb := markerRow_bounds s startRow r h
    show (if (getCell s r 8).isBlank = true then r else s.nrows) ≤ s.nrows
    by_cases hbl : (getCell s r 8).isBlank = true
    · rw [if_pos hbl]; omega
    · rw [if_neg hbl]

theorem nrows_filledSheet (s : Sheet) (startRow : Nat) :
    (filledSheet s startRow).nrows = s.nrows := by
  unfold filledSheet
  rw [nrows_condFill, nrows_specialFill, nrows_fillDownCols]

/-- In the non-short-circuit case, `process_excel_st` returns the filled
sheet truncated at `end_row_for_deletion - 1`, together with the valid codes. -/
theorem process_eq_of_not_short (s : Sheet) (startRow : Nat)
    (hnp : ¬ endRowForProcessing s startRow < startRow) :
    process_excel_st s startRow =
      (⟨endRowForDeletion s startRow - 1, (filledSheet s startRow).cells⟩, validValues) := by
  have hdel : endRowForDeletion s startRow ≤ (filledSheet s startRow).nrows := by
    rw [nrows_filledSheet]; exact endRowForDeletion_le s startRow
  simp only [process_excel_st]
  rw [if_neg hnp, if_pos hdel]

theorem nrows_process (s : Sheet) (startRow : Nat)
    (hnp : ¬ endRowForProcessing s startRow < startRow) :
    (process_excel_st s startRow).1.nrows = endRowForDeletion s startRow - 1 := by
  rw [process_eq_of_not_short s startRow hnp]

/-- Rows that survive the final deletion read the same cells as the filled
sheet: deletion only truncates the row count. -/
theorem getCell_process_of_kept (s : Sheet) (startRow r c : Nat)
    (hnp : ¬ endRowForProcessing s startRow < startRow)
    (hr : r ≤ (process_excel_st s startRow).1.nrows) :
    getCell (process_excel_st s startRow).1 r c = getCell (filledSheet s startRow) r c := by
  rw [process_eq_of_not_short s startRow hnp] at hr ⊢
  have hfn : (filledSheet s startRow).nrows = s.nrows := nrows_filledSheet s startRow
  have hd := endRowForDeletion_le s startRow
  simp only [getCell] at hr ⊢
  by_cases h1 : 1 ≤ r
  · rw [if_pos ⟨h1, hr⟩, if_pos ⟨h1, by omega⟩]
  · rw [if_neg (by intro hq; exact h1 hq.1), if_neg (by intro hq; exact h1 hq.1)]

/-! ## Supporting lemmas: orders, stable sorting and deduplication -/

theorem charToNat_inj (x y : Char) (h : x.toNat = y.toNat) : x = y :=
  Char.ofNat_toNat x ▸ Char.ofNat_toNat y ▸ congrArg Char.ofNat h

theorem charListLt_irrefl (l : List Char) : charListLt l l = false := by
  induction l with
  | nil => rfl
  | cons c cs ih => simp [charListLt, ih]

theorem charListLt_trans : ∀ (a b c : List Char),
    charListLt a b = true → charListLt b c = true → charListLt a c = true := by
  intro a
  induction a with
  | nil =>
    intro b c hab hbc
    cases b with
    | nil => simp [charListLt] at hab
    | cons y ys =>
      cases c with
      | nil => simp [charListLt] at hbc
      | cons z zs => rfl
  | cons x xs ih =>
    intro b c hab hbc
    cases b with
    | nil => simp [charListLt] at hab
    | cons y ys =>
      cases c with
      | nil => simp [charListLt] at hbc
      | cons z zs =>
        simp only [charListLt] at hab hbc ⊢
        by_cases h1 : x.toNat < y.toNat
        · by_cases h3 : y.toNat < z.toNat
          · rw [if_pos (by omega)]
          · by_cases h4 : z.toNat < y.toNat
            · rw [if_neg h3, if_pos h4] at hbc
              exact absurd hbc (by simp)
            · rw [if_pos (by omega)]
        · by_cases h2 : y.toNat < x.toNat
          · rw [if_neg h1, if_pos h2] at hab
            exact absurd hab (by simp)
          · rw [if_neg h1, if_neg h2] at hab
            by_cases h3 : y.toNat < z.toNat
            · rw [if_pos (by omega)]
            · by_cases h4 : z.toNat < y.toNat
              · rw [if_neg h3, if_pos h4] at hbc
                exact absurd hbc (by simp)
              · rw [if_neg h3, if_neg h4] at hbc
                rw [if_neg (by omega), if_neg (by omega)]
                exact ih ys zs hab hbc

theorem charListLt_trichotomy : ∀ (a b : List Char),
    charListLt a b = true ∨ charListLt b a = true ∨ a = b := by
  intro a
  induction a with
  | nil =>
    intro b
    cases b with
    | nil => exact Or.inr (Or.inr rfl)
    | cons y ys => exact Or.inl rfl
  | cons x xs ih =>
    intro b
    cases b with
    | nil => exact Or.inr (Or.inl rfl)
    | cons y ys =>
      by_cases h1 : x.toNat < y.toNat
      · exact Or.inl (by simp [charListLt, h1])
      · by_cases h2 : y.toNat < x.toNat
        · exact Or.inr (Or.inl (by simp [charListLt, h2, h1]))
        · have hxy : x = y := charToNat_inj x y (by omega)
          subst hxy
          rcases ih ys with h | h | h
          · exact Or.inl (by simp [charListLt, h])
          · exact Or.inr (Or.inl (by simp [charListLt, h]))
          · exact Or.inr (Or.inr (by rw [h]))

theorem strLeB_total (a b : String) : strLeB a b = true ∨ strLeB b a = true := by
  unfold strLeB
  by_cases h1 : charListLt b.data a.data = true
  · right
    by_cases h2 : charListLt a.data b.data = true
    · have := charListLt_trans _ _ _ h1 h2
      rw [charListLt_irrefl] at this
      exact absurd this (by simp)
    · simp [h2]
  · left
    simp [h1]

theorem strLeB_trans (a b c : String) (hab : strLeB a b = true) (hbc : strLeB b c = true) :
    strLeB a c = true := by
  unfold strLeB at hab hbc ⊢
  simp only [Bool.not_eq_true'] at hab hbc ⊢
  by_cases hca : charListLt c.data a.data = true
  · rcases charListLt_trichotomy c.data b.data with h | h | h
    · rw [h] at hbc; exact absurd hbc (by simp)
    · have := charListLt_trans _ _ _ h hca
      rw [this] at hab
      exact absurd hab (by simp)
    · rw [h] at hca
      rw [hca] at hab
      exact absurd hab (by simp)
  · simp at hca
    exact hca

theorem mem_sortInsert {α : Type} (le : α → α → Bool) (x z : α) (l : List α) :
    z ∈ sortInsert le x l ↔ z = x ∨ z ∈ l := by
  induction l with
  | nil => simp [sortInsert]
  | cons y ys ih =>
    rw [sortInsert]
    by_cases h : le x y = true
    · rw [if_pos h]
      simp [List.mem_cons]
    · rw [if_neg h]
      simp only [List.mem_cons, ih]
      tauto

theorem sortInsert_perm {α : Type} (le : α → α → Bool) (x : α) (l : List α) :
    (sortInsert le x l).Perm (x :: l) := by
  induction l with
  | nil => exact List.Perm.refl _
  | cons y ys ih =>
    rw [sortInsert]
    by_cases h : le x y = true
    · rw [if_pos h]
    · rw [if_neg h]
      exact (ih.cons y).trans (List.Perm.swap x y ys)

theorem stableSort_perm {α : Type} (le : α → α → Bool) (l : List α) :
    (stableSort le l).Perm l := by
  induction l with
  | nil => exact List.Perm.refl _
  | cons x xs ih => exact (sortInsert_perm le x (stableSort le xs)).trans (ih.cons x)

theorem sortInsert_pairwise {α : Type} (le : α → α → Bool) (R : α → α → Prop)
    (htot : ∀ a b, le a b = true ∨ le b a = true)
    (htrans : ∀ a b c, le a b = true → le b c = true → le a c = true)
    (x : α) :
    ∀ (l : List α), (∀ y ∈ l, R x y) →
    l.Pairwise (fun a b => le a b = true ∧ (le b a = true → R a b)) →
    (sortInsert le x l).Pairwise (fun a b => le a b = true ∧ (le b a = true → R a b)) := by
  intro l
  induction l with
  | nil =>
    intro _ _
    simp [sortInsert]
  | cons y ys ih =>
    intro hR hP
    rw [sortInsert]
    by_cases hxy : le x y = true
    · rw [if_pos hxy]
      refine List.pairwise_cons.mpr ⟨?_, hP⟩
      intro z hz
      rcases List.mem_cons.mp hz with rfl | hz
      · exact ⟨hxy, fun _ => hR z (List.mem_cons_self _ _)⟩
      · have hyz : le y z = true := ((List.pairwise_cons.mp hP).1 z hz).1
        exact ⟨htrans x y z hxy hyz, fun _ => hR z (List.mem_cons_of_mem _ hz)⟩
    · rw [if_neg hxy]
      have hyx : le y x = true := (htot x y).resolve_left hxy
      refine List.pairwise_cons.mpr ⟨?_, ?_⟩
      · intro z hz
        rcases (mem_sortInsert le x z ys).mp hz with rfl | hz
        · exact ⟨hyx, fun h => absurd h hxy⟩
        · exact (List.pairwise_cons.mp hP).1 z hz
      · exact ih (fun w hw => hR w (List.mem_cons_of_mem _ hw)) (List.pairwise_cons.mp hP).2

theorem stableSort_pairwise {α : Type} (le : α → α → Bool) (R : α → α → Prop)
    (htot : ∀ a b, le a b = true ∨ le b a = true)
    (htrans : ∀ a b c, le a b = true → le b c = true → le a c = true) :
    ∀ (l : List α), l.Pairwise R →
    (stableSort le l).Pairwise (fun a b => le a b = true ∧ (le b a = true → R a b)) := by
  intro l
  induction l with
  | nil =>
    intro _
    exact List.Pairwise.nil
  | cons x xs ih =>
    intro hP
    rw [stableSort]
    refine sortInsert_pairwise le R htot htrans x (stableSort le xs) ?_
      (ih (List.pairwise_cons.mp hP).2)
    intro y hy
    exact (List.pairwise_cons.mp hP).1 y (((stableSort_perm le xs).mem_iff).mp hy)

theorem pairwise_trivial {α : Type} (l : List α) : l.Pairwise (fun _ _ => True) := by
  induction l with
  | nil => exact List.Pairwise.nil
  | cons x xs ih => exact List.pairwise_cons.mpr ⟨fun _ _ => trivial, ih⟩

theorem perm_toFinset {α : Type} [DecidableEq α] (l₁ l₂ : List α) (h : l₁.Perm l₂) :
    l₁.toFinset = l₂.toFinset := by
  ext a
  simp only [List.mem_toFinset]
  exact h.mem_iff

theorem dedupBy_keys_spec {α β : Type} [DecidableEq β] (key : α → β) :
    ∀ (l : List α) (seen : List β),
    ((dedupBy key l seen).map key).Nodup ∧ ∀ k ∈ (dedupBy key l seen).map key, k ∉ seen := by
  intro l
  induction l with
  | nil =>
    intro seen
    refine ⟨?_, ?_⟩ <;> simp [dedupBy]
  | cons x xs ih =>
    intro seen
    rw [dedupBy]
    by_cases h : key x ∈ seen
    · rw [if_pos h]
      exact ih seen
    · rw [if_neg h]
      obtain ⟨ih1, ih2⟩ := ih (key x :: seen)
      constructor
      · rw [List.map_cons]
        refine List.nodup_cons.mpr ⟨?_, ih1⟩
        intro hmem
        exact ih2 _ hmem (List.mem_cons_self _ _)
      · intro k hk
        rw [List.map_cons] at hk
        rcases List.mem_cons.mp hk with rfl | hk
        · exact h
        · intro hks
          exact ih2 k hk (List.mem_cons_of_mem _ hks)

theorem dedupBy_of_nodup {α β : Type} [DecidableEq β] (key : α → β) :
    ∀ (l : List α) (seen : List β),
    (l.map key).Nodup → (∀ k ∈ l.map key, k ∉ seen) → dedupBy key l seen = l := by
  intro l
  induction l with
  | nil => intro _ _ _; simp [dedupBy]
  | cons x xs ih =>
    intro seen hnd hdisj
    rw [dedupBy, if_neg (hdisj (key x) (by simp))]
    congr 1
    refine ih (key x :: seen) (List.nodup_cons.mp (by rw [List.map_cons] at hnd; exact hnd)).2 ?_
    intro k hk
    intro hks
    rcases List.mem_cons.mp hks with rfl | hks
    · exact (List.nodup_cons.mp (by rw [List.map_cons] at hnd; exact hnd)).1 hk
    · exact hdisj k (by rw [List.map_cons]; exact List.mem_cons_of_mem _ hk) hks

theorem dedupBy_length_card {α β : Type} [DecidableEq β] (key : α → β) :
    ∀ (l : List α) (seen : List β),
    (dedupBy key l seen).length = ((l.map key).toFinset \ seen.toFinset).card := by
  intro l
  induction l with
  | nil =>
    intro seen
    rw [show dedupBy key ([] : List α) seen = [] from rfl]
    simp
  | cons x xs ih =>
    intro seen
    rw [dedupBy, List.map_cons, List.toFinset_cons]
    by_cases h : key x ∈ seen
    · rw [if_pos h]
      rw [Finset.insert_sdiff_of_mem _ (List.mem_toFinset.mpr h)]
      exact ih seen
    · rw [if_neg h]
      have hnotT : key x ∉ seen.toFinset := fun hq => h (List.mem_toFinset.mp hq)
      rw [Finset.insert_sdiff_of_not_mem _ hnotT]
      rw [List.length_cons, ih (key x :: seen)]
      have hsd : (xs.map key).toFinset \ (key x :: seen).toFinset
          = ((xs.map key).toFinset \ seen.toFinset).erase (key x) := by
        rw [List.toFinset_cons]
        exact Finset.sdiff_insert _ _ _
      rw [hsd]
      by_cases hmem : key x ∈ (xs.map key).toFinset \ seen.toFinset
      · rw [Finset.card_erase_of_mem hmem, Finset.card_insert_of_mem hmem]
        have hpos : 0 < ((xs.map key).toFinset \ seen.toFinset).card :=
          Finset.card_pos.mpr ⟨_, hmem⟩
        omega
      · rw [Finset.erase_eq_of_not_mem hmem, Finset.card_insert_of_not_mem hmem]

/-! ## Supporting lemmas: field rendering -/

theorem countP_fieldPara_bullets (opts : List String) :
    List.countP isFieldPara (opts.map (fun o => DocItem.bullet (safeTextS o))) = 0 := by
  induction opts with
  | nil => rfl
  | cons o os ih => simp [List.countP_cons, isFieldPara, ih]

/-- Every branch of the field loop body emits exactly one field-label
paragraph. -/
theorem countP_fieldPara_renderField (df : List FRow) (cfg : List (String × Bool)) (row : FRow) :
    List.countP isFieldPara (renderField df cfg row) = 1 := by
  unfold renderField
  by_cases hft : row.fieldType = "Dropdown select"
  · rw [if_pos hft]
    rw [List.countP_cons]
    simp only [isFieldPara, if_pos]
    by_cases he : (optionsForField df row.fieldId).isEmpty
    · rw [if_pos he]
      simp [List.countP_cons, isFieldPara]
    · rw [if_neg he]
      by_cases h50 : 50 < (optionsForField df row.fieldId).length
      · rw [if_pos h50]
        by_cases hcfg : lookupCfg cfg row.fieldId = true
        · rw [if_pos hcfg]
          rw [List.countP_cons, countP_fieldPara_bullets]
          simp [isFieldPara]
        · rw [if_neg hcfg]
          simp [List.countP_cons, isFieldPara]
      · rw [if_neg h50]
        rw [List.countP_cons, countP_fieldPara_bullets]
        simp [isFieldPara]
  · rw [if_neg hft]
    simp [List.countP_cons, isFieldPara]

theorem renderField_no_heading (df : List FRow) (cfg : List (String × Bool)) (row : FRow) :
    ∀ it ∈ renderField df cfg row, isHeadingItem it = false := by
  intro it hit
  unfold renderField at hit
  by_cases hft : row.fieldType = "Dropdown select"
  · rw [if_pos hft] at hit
    rcases List.mem_cons.mp hit with rfl | hit
    · rfl
    · by_cases he : (optionsForField df row.fieldId).isEmpty
      · rw [if_pos he] at hit
        rcases List.mem_cons.mp hit with rfl | hit
        · rfl
        · simp at hit
      · rw [if_neg he] at hit
        by_cases h50 : 50 < (optionsForField df row.fieldId).length
        · rw [if_pos h50] at hit
          by_cases hcfg : lookupCfg cfg row.fieldId = true
          · rw [if_pos hcfg] at hit
            rcases List.mem_cons.mp hit with rfl | hit
            · rfl
            · obtain ⟨o, _, rfl⟩ := List.mem_map.mp hit
              rfl
          · rw [if_neg hcfg] at hit
            rcases List.mem_cons.mp hit with rfl | hit
            · rfl
            · rcases List.mem_cons.mp hit with rfl | hit
              · rfl
              · simp at hit
        · rw [if_neg h50] at hit
          rcases List.mem_cons.mp hit with rfl | hit
          · rfl
          · obtain ⟨o, _, rfl⟩ := List.mem_map.mp hit
            rfl
  · rw [if_neg hft] at hit
    rcases List.mem_cons.mp hit with rfl | hit
    · rfl
    · simp at hit

theorem renderFieldsLoop_countP (df : List FRow) (cfg : List (String × Bool)) :
    ∀ (l : List FRow) (processed : List String),
    List.countP isFieldPara (renderFieldsLoop df cfg l processed)
      = (dedupBy (fun r => r.fieldId) l processed).length := by
  intro l
  induction l with
  | nil => intro _; rfl
  | cons row rest ih =>
    intro processed
    rw [renderFieldsLoop, dedupBy]
    by_cases h : row.fieldId ∈ processed
    · rw [if_pos h, if_pos h]
      exact ih processed
    · rw [if_neg h, if_neg h]
      rw [List.countP_append, countP_fieldPara_renderField, List.length_cons, ih]
      omega

theorem renderFieldsLoop_no_heading (df : List FRow) (cfg : List (String × Bool)) :
    ∀ (l : List FRow) (processed : List String) (it : DocItem),
    it ∈ renderFieldsLoop df cfg l processed → isHeadingItem it = false := by
  intro l
  induction l with
  | nil => intro _ it hit; simp [renderFieldsLoop] at hit
  | cons row rest ih =>
    intro processed it hit
    rw [renderFieldsLoop] at hit
    by_cases h : row.fieldId ∈ processed
    · rw [if_pos h] at hit
      exact ih processed it hit
    · rw [if_neg h] at hit
      rcases List.mem_append.mp hit with hit | hit
      · exact renderField_no_heading df cfg row it hit
      · exact ih _ it hit

/-- The field blocks of one subsection rendering: one per distinct Field ID of
the group, regardless of how many rows share an ID. -/
theorem countP_renderSubsectionRows (df : List FRow) (cfg : List (String × Bool)) (g : List FRow) :
    List.countP isFieldPara (renderSubsectionRows df cfg g)
      = ((g.map (fun r => r.fieldId)).toFinset).card := by
  unfold renderSubsectionRows
  rw [renderFieldsLoop_countP]
  have heq := dedupBy_of_nodup (fun r => r.fieldId)
    (dedupBy (fun r => r.fieldId) (stableSort (fun a b => decide (a.positionId ≤ b.positionId)) g) []) []
    (dedupBy_keys_spec (fun r => r.fieldId)
      (stableSort (fun a b => decide (a.positionId ≤ b.positionId)) g) []).1 (by simp)
  rw [heq]
  rw [dedupBy_length_card]
  rw [show (([] : List String).toFinset) = ∅ from rfl, Finset.sdiff_empty]
  exact congrArg Finset.card
    (perm_toFinset _ _ ((stableSort_perm _ g).map (fun r => r.fieldId)))

/-! ## Supporting lemmas: key ordering and section headings -/

theorem orderedKeysBy_pairwise (g : List FRow) (key : FRow → String) :
    (orderedKeysBy g key).Pairwise (fun a b =>
      minPosBy g key a ≤ minPosBy g key b ∧
      (minPosBy g key b ≤ minPosBy g key a → strLeB a b = true)) := by
  unfold orderedKeysBy
  have h1 : (stableSort strLeB (dedupStr (g.map key))).Pairwise (fun a b => strLeB a b = true) := by
    have := stableSort_pairwise strLeB (fun _ _ => True) strLeB_total strLeB_trans
      (dedupStr (g.map key)) (pairwise_trivial _)
    exact this.imp (fun h => h.1)
  have htot : ∀ a b : String, decide (minPosBy g key a ≤ minPosBy g key b) = true ∨
      decide (minPosBy g key b ≤ minPosBy g key a) = true := by
    intro a b
    rcases le_total (minPosBy g key a) (minPosBy g key b) with h | h
    · exact Or.inl (decide_eq_true h)
    · exact Or.inr (decide_eq_true h)
  have htrans : ∀ a b c : String, decide (minPosBy g key a ≤ minPosBy g key b) = true →
      decide (minPosBy g key b ≤ minPosBy g key c) = true →
      decide (minPosBy g key a ≤ minPosBy g key c) = true := by
    intro a b c hab hbc
    exact decide_eq_true (le_trans (of_decide_eq_true hab) (of_decide_eq_true hbc))
  have h2 := stableSort_pairwise (fun a b => decide (minPosBy g key a ≤ minPosBy g key b))
    (fun a b => strLeB a b = true) htot htrans _ h1
  exact h2.imp (fun h => ⟨of_decide_eq_true h.1, fun hba => h.2 (decide_eq_true hba)⟩)

theorem orderedKeysBy_perm (g : List FRow) (key : FRow → String) :
    (orderedKeysBy g key).Perm (dedupStr (g.map key)) :=
  (stableSort_perm _ _).trans (stableSort_perm _ _)

theorem sectionHeadings_append (a b : List DocItem) :
    sectionHeadings (a ++ b) = sectionHeadings a ++ sectionHeadings b :=
  List.filterMap_append a b _

theorem sectionHeadings_nil_of_no_heading (items : List DocItem)
    (h : ∀ it ∈ items, isHeadingItem it = false) : sectionHeadings items = [] := by
  induction items with
  | nil => rfl
  | cons it its ih =>
    have hhd := h it (List.mem_cons_self _ _)
    have htl := ih (fun x hx => h x (List.mem_cons_of_mem _ hx))
    cases it with
    | heading l t => simp [isHeadingItem] at hhd
    | fieldPara t => simpa [sectionHeadings, List.filterMap_cons] using htl
    | para t => simpa [sectionHeadings, List.filterMap_cons] using htl
    | bullet t => simpa [sectionHeadings, List.filterMap_cons] using htl

theorem sectionHeadings_renderSubsectionPass (df : List FRow) (cfg : List (String × Bool))
    (sg : List FRow) (h : String) :
    sectionHeadings (renderSubsectionPass df cfg sg h) = [] := by
  unfold renderSubsectionPass
  by_cases hu : isUnnamedHeader h = false
  · rw [if_pos hu]
    rw [List.cons_append, show sectionHeadings (DocItem.heading 2 h ::
      (renderSubsectionRows df cfg (sg.filter (fun r => r.subsectionHeader = h)) ++ [DocItem.para ""]))
      = sectionHeadings (renderSubsectionRows df cfg
          (sg.filter (fun r => r.subsectionHeader = h)) ++ [DocItem.para ""]) from rfl]
    rw [sectionHeadings_append]
    have h0 : sectionHeadings (renderSubsectionRows df cfg
        (sg.filter (fun r => r.subsectionHeader = h))) = [] :=
      sectionHeadings_nil_of_no_heading _
        (fun it hit => renderFieldsLoop_no_heading df cfg _ _ it hit)
    rw [h0]
    rfl
  · rw [if_neg hu]
    by_cases he : (unnamedRows sg).isEmpty
    · simp only [he, if_pos]
      rfl
    · simp only [he]
      rw [if_neg (by simp [he])]
      rw [sectionHeadings_append]
      have h0 : sectionHeadings (renderSubsectionRows df cfg (unnamedRows sg)) = [] :=
        sectionHeadings_nil_of_no_heading _
          (fun it hit => renderFieldsLoop_no_heading df cfg _ _ it hit)
      rw [h0]
      rfl

theorem sectionHeadings_renderSection (df : List FRow) (cfg : List (String × Bool))
    (fg : List FRow) (sec : String) :
    sectionHeadings (renderSection df cfg fg sec) = [sec] := by
  unfold renderSection
  have hflat : ∀ keys : List String,
      sectionHeadings (keys.flatMap
        (renderSubsectionPass df cfg (fg.filter (fun r => r.«section» = sec)))) = [] := by
    intro keys
    induction keys with
    | nil => rfl
    | cons k ks ih =>
      rw [List.flatMap_cons, sectionHeadings_append, ih,
        sectionHeadings_renderSubsectionPass]
      rfl
  rw [show sectionHeadings (DocItem.heading 1 sec ::
      (orderedKeysBy (fg.filter (fun r => r.«section» = sec)) (fun r => r.subsectionHeader)).flatMap
        (renderSubsectionPass df cfg (fg.filter (fun r => r.«section» = sec))))
    = sec :: sectionHeadings ((orderedKeysBy (fg.filter (fun r => r.«section» = sec))
        (fun r => r.subsectionHeader)).flatMap
        (renderSubsectionPass df cfg (fg.filter (fun r => r.«section» = sec)))) from rfl]
  rw [hflat]

theorem sectionHeadings_renderForm (df : List FRow) (cfg : List (String × Bool)) (fd fi : String) :
    sectionHeadings (renderForm df cfg fd fi) =
      orderedKeysBy (df.filter (fun r => r.formDesc = fd ∧ r.formId = fi)) (fun r => r.«section») := by
  unfold renderForm
  have hflat : ∀ keys : List String,
      sectionHeadings (keys.flatMap
        (renderSection df cfg (df.filter (fun r => r.formDesc = fd ∧ r.formId = fi)))) = keys := by
    intro keys
    induction keys with
    | nil => rfl
    | cons k ks ih =>
      rw [List.flatMap_cons, sectionHeadings_append, ih, sectionHeadings_renderSection]
      rfl
  rw [show sectionHeadings (DocItem.heading 0 ("Form: " ++ fd ++ " [" ++ fi ++ "]") ::
      (orderedKeysBy (df.filter (fun r => r.formDesc = fd ∧ r.formId = fi)) (fun r => r.«section»)).flatMap
        (renderSection df cfg (df.filter (fun r => r.formDesc = fd ∧ r.formId = fi))))
    = sectionHeadings ((orderedKeysBy (df.filter (fun r => r.formDesc = fd ∧ r.formId = fi))
        (fun r => r.«section»)).flatMap
        (renderSection df cfg (df.filter (fun r => r.formDesc = fd ∧ r.formId = fi)))) from rfl]
  rw [hflat]

/-! ## Claim theorems -/

/-- C1: evaluation of the normalizer at a failing input for the claim "if
column 8 of the marker row is non-blank, or no such marker row exists, no rows
are removed". On a three-row sheet with no marker row anywhere the code still
deletes the last row, because `end_row_for_deletion` is initialised to
`max_row` (not `max_row + 1`) and the deletion guard `max_row >=
end_row_for_deletion` is then always satisfied. -/
theorem C1_no_marker_last_row_deleted :
    markerRow exC1 1 = none ∧ exC1.nrows = 3 ∧
    (process_excel_st exC1 1).1.nrows = 2 ∧
    getCell exC1 3 1 = Cell.str "a3" ∧
    getCell (process_excel_st exC1 1).1 3 1 = Cell.empty := by
  refine ⟨by decide, by decide, by decide, by decide, by decide⟩

/-- C2 (counterexample): the claim says the header row is never a source of
fill-down and that a cell with no non-blank value above it stays blank; but on
`exC2` the blank cell at row 2, column 1 receives the header row's value
"H1". -/
theorem C2_counterexample_header_is_source :
    getCell exC2 1 1 = Cell.str "H1" ∧ getCell exC2 2 1 = Cell.empty ∧
    (getCell exC2 2 1).isBlank = true ∧
    getCell (process_excel_st exC2 1).1 2 1 = Cell.str "H1" := by
  refine ⟨by decide, by decide, by decide, by decide⟩

/-- C2 (amended): after the fill-down phase over columns 1-10 and rows
`startRow+1 .. processEnd`, every cell equals `fillSpec`: the nearest
non-blank original value at or above it in the same column, searching down to
row `startRow` — the header row can be a source but is never a target — and a
cell stays blank exactly when every cell of the column in rows
`startRow .. r` is originally blank. -/
theorem C2_fill_down_amended (s : Sheet) (startRow r c : Nat)
    (hc : c ∈ fillCols) (h1 : startRow ≤ r) (h2 : r ≤ endRowForProcessing s startRow) :
    getCell (fillDownCols fillCols startRow (endRowForProcessing s startRow - startRow) s) r c
      = fillSpec s c startRow r ∧
    ((fillSpec s c startRow r).isBlank = true ↔
      ∀ r', startRow ≤ r' → r' ≤ r → (getCell s r' c).isBlank = true) := by
  have hpe := endRowForProcessing_le s startRow
  constructor
  · exact fillDownCols_get fillCols startRow _ s c r hc (by decide) h1 (by omega) (by omega)
  · exact fillSpec_blank_iff s c startRow r h1

/-- C2 (witness): the amended fill-down statement instantiated on `exC2` at
row 2, column 1. -/
theorem C2_fill_down_amended_witness :
    ((1 : Nat) ∈ fillCols ∧ (1 : Nat) ≤ 2 ∧ 2 ≤ endRowForProcessing exC2 1) ∧
    (getCell (fillDownCols fillCols 1 (endRowForProcessing exC2 1 - 1) exC2) 2 1
        = fillSpec exC2 1 1 2 ∧
      ((fillSpec exC2 1 1 2).isBlank = true ↔
        ∀ r', 1 ≤ r' → r' ≤ 2 → (getCell exC2 r' 1).isBlank = true)) :=
  ⟨⟨by decide, by decide, by decide⟩,
    C2_fill_down_amended exC2 1 2 1 (by decide) (by decide) (by decide)⟩

/-- C3 (counterexample): in row 2 of `exC3` the conditional-fill condition
holds (column 10 is "Dropdown select" and column 6 is 10 ∈ valid_values), the
column-14 cell is a whitespace-only string — blank in the claim's sense — yet
it is not filled from the row above, while the `None` cell in column 15 is
filled. The claim predicts column 14 would become "A". -/
theorem C3_counterexample_whitespace_not_filled :
    condRow exC3 2 = true ∧
    getCell exC3 2 14 = Cell.str " " ∧ (Cell.str " ").isBlank = true ∧
    getCell exC3 1 14 = Cell.str "A" ∧
    getCell (process_excel_st exC3 1).1 2 14 = Cell.str " " ∧
    getCell exC3 2 15 = Cell.empty ∧
    getCell (process_excel_st exC3 1).1 2 15 = Cell.str "B" := by
  refine ⟨by decide, by decide, by decide, by decide, by decide, by decide, by decide⟩

/-- C3 (amended): in the conditional-fill phase, a column 14/15 cell is filled
from the (already processed) previous row exactly when the row's column 10
equals "Dropdown select", its column 6 parses as an integer belonging to
`valid_values`, and the cell itself is `None` — a whitespace-only string cell
is left unchanged, as is everything when the condition fails. -/
theorem C3_conditional_fill_amended (s : Sheet) (startRow n r c : Nat)
    (hc : c = 14 ∨ c = 15) (h1 : startRow < r) (h2 : r ≤ startRow + n)
    (h3 : startRow + n ≤ s.nrows) :
    getCell (condFill startRow n s) r c =
      (if condRow s r = true ∧ getCell s r c = Cell.empty
       then getCell (condFill startRow n s) (r - 1) c
       else getCell s r c) := by
  rw [condFill_get startRow n s r c hc (by omega) h2 h3]
  rw [condFill_get startRow n s (r - 1) c hc (by omega) (by omega) h3]
  cases r with
  | zero => omega
  | succ r' =>
    rw [condSpec_succ s c startRow r' h1]
    simp only [Nat.add_sub_cancel]

/-- C3 (witness): the amended conditional-fill statement instantiated on
`exC3` at row 2, column 15. -/
theorem C3_conditional_fill_amended_witness :
    (1 < 2 ∧ 2 ≤ 1 + 2 ∧ 1 + 2 ≤ exC3.nrows) ∧
    getCell (condFill 1 2 exC3) 2 15 =
      (if condRow exC3 2 = true ∧ getCell exC3 2 15 = Cell.empty
       then getCell (condFill 1 2 exC3) 1 15
       else getCell exC3 2 15) :=
  ⟨⟨by decide, by decide, by decide⟩,
    C3_conditional_fill_amended exC3 1 2 2 15 (Or.inr rfl) (by decide) (by decide) (by decide)⟩

/-- C4: the option-threshold policy of the dropdown branch. With 1-50
distinct options every option is rendered as its own bullet entry; with more
than 50, everything is rendered exactly as in the small case iff the
configuration entry for the field is true (absent entries default to false
through `lookupCfg`); when it is false the output is the label paragraph, the
"Options:" paragraph and the fixed skip note — a constant string independent
of the option list, so no option and no count appears — with no bullet
entries at all. -/
theorem C4_option_threshold (df : List FRow) (cfg : List (String × Bool)) (row : FRow)
    (hft : row.fieldType = "Dropdown select") :
    (1 ≤ (optionsForField df row.fieldId).length → (optionsForField df row.fieldId).length ≤ 50 →
      renderField df cfg row = DocItem.fieldPara (fieldLabelDropdown row) :: DocItem.para "Options:" ::
        (optionsForField df row.fieldId).map (fun o => DocItem.bullet (safeTextS o))) ∧
    (50 < (optionsForField df row.fieldId).length → lookupCfg cfg row.fieldId = true →
      renderField df cfg row = DocItem.fieldPara (fieldLabelDropdown row) :: DocItem.para "Options:" ::
        (optionsForField df row.fieldId).map (fun o => DocItem.bullet (safeTextS o))) ∧
    (50 < (optionsForField df row.fieldId).length → lookupCfg cfg row.fieldId = false →
      renderField df cfg row = [DocItem.fieldPara (fieldLabelDropdown row), DocItem.para "Options:",
        DocItem.para moreThan50Text] ∧
      List.countP isBulletItem (renderField df cfg row) = 0) := by
  have hne : ∀ k : Nat, 1 ≤ (optionsForField df row.fieldId).length →
      ¬ ((optionsForField df row.fieldId).isEmpty = true) := by
    intro _ hge hq
    rw [List.isEmpty_iff] at hq
    rw [hq] at hge
    simp at hge
  refine ⟨?_, ?_, ?_⟩
  · intro hge hle
    unfold renderField
    rw [if_pos hft, if_neg (hne 0 hge), if_neg (by omega)]
  · intro h50 hcfg
    unfold renderField
    rw [if_pos hft, if_neg (hne 0 (by omega)), if_pos h50, if_pos hcfg]
  · intro h50 hcfg
    have heq : renderField df cfg row = [DocItem.fieldPara (fieldLabelDropdown row),
        DocItem.para "Options:", DocItem.para moreThan50Text] := by
      unfold renderField
      rw [if_pos hft, if_neg (hne 0 (by omega)), if_pos h50,
        if_neg (by rw [hcfg]; simp)]
    refine ⟨heq, ?_⟩
    rw [heq]
    simp [List.countP_cons, isBulletItem]

/-- C4 (witness): the threshold policy at the concrete 60-option field "F9":
with no configuration entry the skip note is emitted with no bullets, with an
enabling entry all 60 options are emitted, and the decimal representation of
the count (60) does not occur in the skip note. -/
theorem C4_option_threshold_witness :
    (rowC4x.fieldType = "Dropdown select" ∧ 50 < (optionsForField dfC4x rowC4x.fieldId).length ∧
      lookupCfg [] rowC4x.fieldId = false ∧ lookupCfg cfgTrueC4 rowC4x.fieldId = true) ∧
    (renderField dfC4x [] rowC4x = [DocItem.fieldPara (fieldLabelDropdown rowC4x),
        DocItem.para "Options:", DocItem.para moreThan50Text] ∧
      List.countP isBulletItem (renderField dfC4x [] rowC4x) = 0) ∧
    renderField dfC4x cfgTrueC4 rowC4x = DocItem.fieldPara (fieldLabelDropdown rowC4x) ::
      DocItem.para "Options:" ::
      (optionsForField dfC4x rowC4x.fieldId).map (fun o => DocItem.bullet (safeTextS o)) ∧
    isInfixB (toString (optionsForField dfC4x rowC4x.fieldId).length).data moreThan50Text.data
      = false :=
  ⟨⟨rfl, by decide, by decide, by decide⟩,
   (C4_option_threshold dfC4x [] rowC4x rfl).2.2 (by decide) (by decide),
   (C4_option_threshold dfC4x cfgTrueC4 rowC4x rfl).2.1 (by decide) (by decide),
   by decide⟩

/-- C5 (counterexample): with the two literal variants "n/a" and "N/A"
present in one section, the collapsed unnamed bucket is rendered once per
variant, so the field block of "f1" appears twice in the rendered section —
the claim says the bucket is rendered exactly once. -/
theorem C5_counterexample_variant_rendered_twice :
    isUnnamedHeader "n/a" = true ∧ isUnnamedHeader "N/A" = true ∧
    List.count (DocItem.fieldPara "d1: [Text; f1] ") (renderSection dfC5x [] dfC5x "S") = 2 := by
  refine ⟨by decide, by decide, by decide⟩

/-- C5 (amended): every row whose Subsection Header is blank or
case-insensitively "n/a" after trimming belongs to the single collapsed
unnamed bucket: any two unnamed header variants render the identical item
list, the bucket is skipped entirely when empty after filtering, it is
rendered without any heading — but it is rendered once per distinct literal
variant occurring in the section (the subsection loop iterates over the
distinct literal header values), hence exactly once only when a single
variant occurs. -/
theorem C5_unnamed_collapse_amended (df : List FRow) (cfg : List (String × Bool))
    (sg : List FRow) (h h' : String)
    (hh : isUnnamedHeader h = true) (hh' : isUnnamedHeader h' = true) :
    renderSubsectionPass df cfg sg h = renderSubsectionPass df cfg sg h' ∧
    (unnamedRows sg = [] → renderSubsectionPass df cfg sg h = []) ∧
    (∀ it ∈ renderSubsectionPass df cfg sg h, isHeadingItem it = false) ∧
    List.countP isUnnamedHeader (orderedKeysBy sg (fun r => r.subsectionHeader))
      = List.countP isUnnamedHeader (dedupStr (sg.map (fun r => r.subsectionHeader))) := by
  have hne : ¬ (isUnnamedHeader h = false) := by rw [hh]; simp
  have hne' : ¬ (isUnnamedHeader h' = false) := by rw [hh']; simp
  refine ⟨?_, ?_, ?_, ?_⟩
  · unfold renderSubsectionPass
    rw [if_neg hne, if_neg hne']
  · intro h0
    unfold renderSubsectionPass
    rw [if_neg hne]
    simp [h0]
  · intro it hit
    unfold renderSubsectionPass at hit
    rw [if_neg hne] at hit
    by_cases he : (unnamedRows sg).isEmpty = true
    · rw [if_pos he] at hit
      simp at hit
    · rw [if_neg he] at hit
      rcases List.mem_append.mp hit with hit | hit
      · exact renderFieldsLoop_no_heading df cfg _ _ it hit
      · rcases List.mem_cons.mp hit with rfl | hit
        · rfl
        · simp at hit
  · exact (orderedKeysBy_perm sg _).countP_eq _

/-- C5 (witness): the amended unnamed-bucket statement instantiated on the
two-variant section `dfC5x` with the headers "n/a" and "N/A". -/
theorem C5_unnamed_collapse_amended_witness :
    (isUnnamedHeader "n/a" = true ∧ isUnnamedHeader "N/A" = true) ∧
    (renderSubsectionPass dfC5x [] dfC5x "n/a" = renderSubsectionPass dfC5x [] dfC5x "N/A" ∧
     (unnamedRows dfC5x = [] → renderSubsectionPass dfC5x [] dfC5x "n/a" = []) ∧
     (∀ it ∈ renderSubsectionPass dfC5x [] dfC5x "n/a", isHeadingItem it = false) ∧
     List.countP isUnnamedHeader (orderedKeysBy dfC5x (fun r => r.subsectionHeader))
       = List.countP isUnnamedHeader (dedupStr (dfC5x.map (fun r => r.subsectionHeader)))) :=
  ⟨⟨by decide, by decide⟩,
    C5_unnamed_collapse_amended dfC5x [] dfC5x "n/a" "N/A" (by decide) (by decide)⟩

/-- C6: after the full normalization, every surviving row of the processed
range whose column 3 is non-blank has a non-blank column 4, holding either
the literal "(empty subsection)" or the fill-down value `fillSpec` of
column 4 (a row deleted by step 7 reads as blank, making the hypothesis
false there). -/
theorem C6_column4_sentinel (s : Sheet) (startRow r : Nat)
    (h1 : startRow < r) (h2 : r ≤ endRowForProcessing s startRow)
    (h3 : (getCell (process_excel_st s startRow).1 r 3).isBlank = false) :
    (getCell (process_excel_st s startRow).1 r 4).isBlank = false ∧
    (getCell (process_excel_st s startRow).1 r 4 = Cell.str "(empty subsection)" ∨
     getCell (process_excel_st s startRow).1 r 4 = fillSpec s 4 startRow r) := by
  have hnp : ¬ endRowForProcessing s startRow < startRow := by omega
  have hpe := endRowForProcessing_le s startRow
  by_cases hkept : r ≤ (process_excel_st s startRow).1.nrows
  case neg =>
    exfalso
    have hempty : getCell (process_excel_st s startRow).1 r 3 = Cell.empty := by
      unfold getCell
      rw [if_neg (by intro hq; exact hkept hq.2)]
    rw [hempty] at h3
    simp [Cell.isBlank] at h3
  case pos =>
    have hget3 := getCell_process_of_kept s startRow r 3 hnp hkept
    have hget4 := getCell_process_of_kept s startRow r 4 hnp hkept
    have hf3 : getCell (fillDownCols fillCols startRow
        (endRowForProcessing s startRow - startRow) s) r 3 = fillSpec s 3 startRow r :=
      fillDownCols_get fillCols startRow _ s 3 r (by decide) (by decide)
        (by omega) (by omega) (by omega)
    have hf4 : getCell (fillDownCols fillCols startRow
        (endRowForProcessing s startRow - startRow) s) r 4 = fillSpec s 4 startRow r :=
      fillDownCols_get fillCols startRow _ s 4 r (by decide) (by decide)
        (by omega) (by omega) (by omega)
    have hcond3 : getCell (filledSheet s startRow) r 3 = fillSpec s 3 startRow r := by
      unfold filledSheet
      rw [getCell_condFill_out _ _ _ _ _ (Or.inl (by omega))]
      rw [getCell_specialFill_out _ _ _ _ _ (Or.inl (by omega))]
      exact hf3
    have hcond4 : getCell (filledSheet s startRow) r 4 =
        (if (fillSpec s 3 startRow r).isBlank = false ∧ (fillSpec s 4 startRow r).isBlank = true
         then Cell.str "(empty subsection)" else fillSpec s 4 startRow r) := by
      unfold filledSheet
      rw [getCell_condFill_out _ _ _ _ _ (Or.inl (by omega))]
      rw [specialFill_get startRow _ _ r h1 (by omega)
        (by rw [nrows_fillDownCols]; omega)]
      rw [hf3, hf4]
    rw [hget3, hcond3] at h3
    rw [hget4, hcond4]
    by_cases hb4 : (fillSpec s 4 startRow r).isBlank = true
    · rw [if_pos ⟨h3, hb4⟩]
      exact ⟨by decide, Or.inl rfl⟩
    · rw [if_neg (fun hq => hb4 hq.2)]
      rw [Bool.not_eq_true] at hb4
      exact ⟨hb4, Or.inr rfl⟩

/-- C6 (witness): the sentinel invariant instantiated on `exC6` at row 2,
where column 4 receives the literal "(empty subsection)". -/
theorem C6_column4_sentinel_witness :
    (1 < 2 ∧ 2 ≤ endRowForProcessing exC6 1 ∧
      (getCell (process_excel_st exC6 1).1 2 3).isBlank = false) ∧
    ((getCell (process_excel_st exC6 1).1 2 4).isBlank = false ∧
     (getCell (process_excel_st exC6 1).1 2 4 = Cell.str "(empty subsection)" ∨
      getCell (process_excel_st exC6 1).1 2 4 = fillSpec exC6 4 1 2)) :=
  ⟨⟨by decide, by decide, by decide⟩, C6_column4_sentinel exC6 1 2 (by decide) (by decide) (by decide)⟩

/-- C7 (counterexample): on `exC7` the marker row with a blank companion sits
at row 1 = `start_row`, so `processEnd = 0 < startRow`; the claim says the
step-7 deletion is still performed (rows 1..2 removed, since `lastRow = 2 ≥
deleteFrom = 1`), but the code returns the workbook before reaching the
deletion step: both rows survive. -/
theorem C7_counterexample_deletion_skipped :
    endRowForProcessing exC7 1 = 0 ∧ endRowForDeletion exC7 1 = 1 ∧ exC7.nrows = 2 ∧
    (process_excel_st exC7 1).1.nrows = 2 ∧ (process_excel_st exC7 1).2 = [] := by
  refine ⟨by decide, by decide, by decide, by decide, by decide⟩

/-- C7 (amended): whenever `processEnd < startRow` the normalizer skips the
fill steps and also the step-7 row deletion, returning the input sheet
unchanged together with an empty valid-code-set. -/
theorem C7_short_circuit_amended (s : Sheet) (startRow : Nat)
    (h : endRowForProcessing s startRow < startRow) :
    process_excel_st s startRow = (s, []) := by
  unfold process_excel_st
  rw [if_pos h]

/-- C7 (witness): the short-circuit statement instantiated on `exC7`. -/
theorem C7_short_circuit_amended_witness :
    endRowForProcessing exC7 1 < 1 ∧ process_excel_st exC7 1 = (exC7, []) :=
  ⟨by decide, C7_short_circuit_amended exC7 1 (by decide)⟩

/-- C8 (counterexample): two sections "B" then "A" (first-seen order) share
the minimum Position ID 1; the emitted order is alphabetical ("A" before
"B"), because the pandas groupby orders the distinct sections
lexicographically before the stable sort on the minima — not first-seen
order, which would give "B" before "A". -/
theorem C8_counterexample_tie_not_first_seen :
    (dfC8x.map (fun r => r.«section»)) = ["B", "A"] ∧
    minPosBy ((dfC8x.map standardize).filter (fun r => r.formDesc = "F" ∧ r.formId = "1"))
        (fun r => r.«section») "A"
      = minPosBy ((dfC8x.map standardize).filter (fun r => r.formDesc = "F" ∧ r.formId = "1"))
        (fun r => r.«section») "B" ∧
    sectionHeadings (renderForm (dfC8x.map standardize) [] "F" "1") = ["A", "B"] := by
  refine ⟨by decide, by decide, by decide⟩

/-- C8 (amended): within every form group the emitted section headings are
exactly the distinct sections ordered ascending by minimum Position ID, with
ties broken by section name in ascending lexicographic order (the order the
pandas groupby presents the keys in), and each section appears exactly once
(the heading list is a permutation of the distinct sections). -/
theorem C8_section_order_amended (df : List FRow) (cfg : List (String × Bool)) (fd fi : String) :
    sectionHeadings (renderForm (df.map standardize) cfg fd fi) =
      orderedKeysBy ((df.map standardize).filter (fun r => r.formDesc = fd ∧ r.formId = fi))
        (fun r => r.«section») ∧
    (orderedKeysBy ((df.map standardize).filter (fun r => r.formDesc = fd ∧ r.formId = fi))
        (fun r => r.«section»)).Pairwise (fun a b =>
      minPosBy ((df.map standardize).filter (fun r => r.formDesc = fd ∧ r.formId = fi))
          (fun r => r.«section») a
        ≤ minPosBy ((df.map standardize).filter (fun r => r.formDesc = fd ∧ r.formId = fi))
          (fun r => r.«section») b ∧
      (minPosBy ((df.map standardize).filter (fun r => r.formDesc = fd ∧ r.formId = fi))
          (fun r => r.«section») b
        ≤ minPosBy ((df.map standardize).filter (fun r => r.formDesc = fd ∧ r.formId = fi))
          (fun r => r.«section») a → strLeB a b = true)) ∧
    (orderedKeysBy ((df.map standardize).filter (fun r => r.formDesc = fd ∧ r.formId = fi))
        (fun r => r.«section»)).Perm
      (dedupStr (((df.map standardize).filter (fun r => r.formDesc = fd ∧ r.formId = fi)).map
        (fun r => r.«section»))) :=
  ⟨sectionHeadings_renderForm (df.map standardize) cfg fd fi,
   orderedKeysBy_pairwise _ _,
   orderedKeysBy_perm _ _⟩

/-- C9: within one subsection rendering pass, the number of field blocks (the
field-label paragraphs opening each block) equals the number of distinct
Field IDs of the group — a field whose ID appears in N source rows of the
scope yields exactly one block regardless of N — and each executed field-loop
body emits exactly one such paragraph. -/
theorem C9_field_rendered_once (df : List FRow) (cfg : List (String × Bool)) (g : List FRow) :
    List.countP isFieldPara (renderSubsectionRows df cfg g)
      = ((g.map (fun r => r.fieldId)).toFinset).card ∧
    ∀ row : FRow, List.countP isFieldPara (renderField df cfg row) = 1 :=
  ⟨countP_renderSubsectionRows df cfg g, fun row => countP_fieldPara_renderField df cfg row⟩

/-- C10: evaluation of the sanitizer at a failing input for the claim "always
returns a string containing only printable ASCII characters". The control
character U+0001 survives untouched: `encode('ascii', 'ignore')` drops only
code points above 127, keeping ASCII control characters, contrary to the
function's own docstring and comment. (The function is total and trims by
construction.) -/
theorem C10_control_char_survives :
    safe_text_for_docx (some "\x01") = "\x01" ∧
    isPrintableAsciiB "\x01" = false ∧
    safe_text_for_docx (some "a\x01b") = "a\x01b" ∧
    safe_text_for_docx none = "" := by
  refine ⟨by decide, by decide, by decide, by decide⟩
